import Mathlib

/-!
# cau-rss static generator (`cmd/generate_static/main.go`)

A shallow embedding of the static-site generator: the crawl orchestration of
`main`, the aggregate of the Seoul dormitory feeds, and the feed and index
writers, over an explicit filesystem.  The Go standard library routine
`sort.Slice` (package `sort`, the pattern-defeating quicksort of Go 1.19 and
later) that the aggregate calls is embedded function by function over a list
with index-based `Less` and `Swap`, as Go runs it on a slice.
-/

set_option autoImplicit false

namespace CauRss

/-! ## Data model -/

/-- Modelled from the spec: the type `cau_parser.CAUArticle` is declared outside
`main.go`; an article carries a publication date (`Date`, a `time.Time`, here
the instant as an integer) and the fields of a feed entry. -/
structure CAUArticle where
  Title : String
  Url : String
  Date : Int
deriving DecidableEq, Repr

/-- Modelled from the spec: the type `server.CauWebsite` is declared outside
`main.go`; `main.go` reads its fields `Key`, `Name`, `LongName` and `Url`. -/
structure CauWebsite where
  Key : String
  Name : String
  LongName : String
  Url : String
deriving DecidableEq, Repr

/-- The Go zero value of `CauWebsite` (`var allSeoulDormitory server.CauWebsite`). -/
def CauWebsite.zero : CauWebsite := ⟨"", "", "", ""⟩

structure CrawlSuccessItem where
  Articles : List CAUArticle
  SiteInfo : CauWebsite
  Timestamp : Int
deriving DecidableEq, Repr

structure CrwalFailureItem where
  SiteInfo : CauWebsite
  Timestamp : Int
deriving DecidableEq, Repr

structure FeedDataResponse where
  Success : List CrawlSuccessItem
  Failure : List CrwalFailureItem
deriving DecidableEq, Repr

/-! ## Go `sort.Slice` (package `sort`, `zsortfunc.go`) -/

namespace GoSort

variable {α : Type}

/-- `data.Less(i, j)`: the caller's comparison on the current contents. -/
def Less (lt : α → α → Bool) (data : List α) (i j : Nat) : Bool :=
  match data[i]?, data[j]? with
  | some x, some y => lt x y
  | _, _ => false

/-- `data.Swap(i, j)` (`reflectlite.Swapper`). -/
def Swap (data : List α) (i j : Nat) : List α :=
  match data[i]?, data[j]? with
  | some x, some y => (data.set i y).set j x
  | _, _ => data

/-- Inner loop of `insertionSort_func`:
`for j := i; j > a && data.Less(j, j-1); j-- { data.Swap(j, j-1) }`. -/
def insertionSort_inner (lt : α → α → Bool) (a : Nat) : Nat → List α → List α
  | 0, d => d
  | j + 1, d =>
    if a < j + 1 && Less lt d (j + 1) j then
      insertionSort_inner lt a j (Swap d (j + 1) j)
    else d

/-- Outer loop of `insertionSort_func`, `n` iterations left starting at `i`. -/
def insertionSort_outer (lt : α → α → Bool) (a : Nat) : Nat → Nat → List α → List α
  | 0, _, d => d
  | n + 1, i, d => insertionSort_outer lt a n (i + 1) (insertionSort_inner lt a i d)

/-- `insertionSort_func(data, a, b)`: `for i := a + 1; i < b; i++ { ... }`. -/
def insertionSort_func (lt : α → α → Bool) (d : List α) (a b : Nat) : List α :=
  insertionSort_outer lt a (b - (a + 1)) (a + 1) d

/-- `siftDown_func(data, lo, hi, first)` with `root` starting at `lo`; the first
argument bounds the number of iterations (`root` grows and stays below `hi`). -/
def siftDown_func (lt : α → α → Bool) (hi first : Nat) : Nat → Nat → List α → List α
  | 0, _, d => d
  | f + 1, root, d =>
    let child := 2 * root + 1
    if child ≥ hi then d
    else
      let child :=
        if child + 1 < hi && Less lt d (first + child) (first + child + 1) then child + 1
        else child
      if !Less lt d (first + root) (first + child) then d
      else siftDown_func lt hi first f child (Swap d (first + root) (first + child))

/-- First loop of `heapSort_func`: `for i := (hi - 1) / 2; i >= 0; i--`, with
`n = i + 1`. -/
def heapSort_build (lt : α → α → Bool) (hi first : Nat) : Nat → List α → List α
  | 0, d => d
  | n + 1, d => heapSort_build lt hi first n (siftDown_func lt hi first hi n d)

/-- Second loop of `heapSort_func`: `for i := hi - 1; i >= 0; i--`, with
`n = i + 1`. -/
def heapSort_pop (lt : α → α → Bool) (first : Nat) : Nat → List α → List α
  | 0, d => d
  | n + 1, d =>
    heapSort_pop lt first n (siftDown_func lt n first n 0 (Swap d first (first + n)))

/-- `heapSort_func(data, a, b)`. -/
def heapSort_func (lt : α → α → Bool) (d : List α) (a b : Nat) : List α :=
  let first := a
  let hi := b - a
  heapSort_pop lt first hi (heapSort_build lt hi first ((hi - 1) / 2 + 1) d)

/-- `bits.Len(uint(n))`: the number of bits of `n`. -/
def bitsLenAux : Nat → Nat → Nat
  | 0, _ => 0
  | f + 1, n => if n = 0 then 0 else 1 + bitsLenAux f (n / 2)

def bitsLen (n : Nat) : Nat := bitsLenAux n n

/-- `xorshift.Next` on a `uint64`. -/
def xorshiftNext (r : Nat) : Nat :=
  let r := r ^^^ ((r <<< 13) % 2 ^ 64)
  let r := r ^^^ (r >>> 7)
  r ^^^ ((r <<< 17) % 2 ^ 64)

/-- `nextPowerOfTwo(length)`: `1 << bits.Len(uint(length))`. -/
def nextPowerOfTwo (length : Nat) : Nat := (1 <<< bitsLen length) % 2 ^ 64

/-- The three-iteration loop of `breakPatterns_func`, `n` iterations left at
loop index `i`. -/
def breakPatterns_loop (a length idx modulus : Nat) :
    Nat → Nat → Nat → List α → List α
  | 0, _, _, d => d
  | n + 1, i, random, d =>
    let random := xorshiftNext random
    let other := random &&& (modulus - 1)
    let other := if other ≥ length then other - length else other
    breakPatterns_loop a length idx modulus n (i + 1) random (Swap d (idx - 1 + i) (a + other))

/-- `breakPatterns_func(data, a, b)`. -/
def breakPatterns_func (d : List α) (a b : Nat) : List α :=
  let length := b - a
  if length ≥ 8 then
    let random := length
    let modulus := nextPowerOfTwo length
    let idx := a + (length / 4) * 2 - 1
    breakPatterns_loop a length idx modulus 3 0 random d
  else d

inductive sortedHint where
  | unknownHint
  | increasingHint
  | decreasingHint
deriving DecidableEq, Repr

/-- `order2_func(data, a, b, swaps)`; the counter is returned. -/
def order2_func (lt : α → α → Bool) (d : List α) (a b swaps : Nat) : Nat × Nat × Nat :=
  if Less lt d b a then (b, a, swaps + 1) else (a, b, swaps)

/-- `median_func(data, a, b, c, swaps)`. -/
def median_func (lt : α → α → Bool) (d : List α) (a b c swaps : Nat) : Nat × Nat :=
  let (a, b, swaps) := order2_func lt d a b swaps
  let (b, _, swaps) := order2_func lt d b c swaps
  let (_, b, swaps) := order2_func lt d a b swaps
  (b, swaps)

/-- `medianAdjacent_func(data, a, swaps)`. -/
def medianAdjacent_func (lt : α → α → Bool) (d : List α) (a swaps : Nat) : Nat × Nat :=
  median_func lt d (a - 1) a (a + 1) swaps

/-- The Tukey ninther step of `choosePivot_func`: the three calls of
`medianAdjacent_func`, the counter threaded through; returns `(i, j, k, swaps)`. -/
def choosePivot_ninther (lt : α → α → Bool) (d : List α) (i j k swaps : Nat) :
    Nat × Nat × Nat × Nat :=
  let ri := medianAdjacent_func lt d i swaps
  let rj := medianAdjacent_func lt d j ri.2
  let rk := medianAdjacent_func lt d k rj.2
  (ri.1, rj.1, rk.1, rk.2)

/-- The part of `choosePivot_func` before its `switch`: the index `j` of the
chosen pivot and the counter `swaps`. -/
def choosePivot_median (lt : α → α → Bool) (d : List α) (a b : Nat) : Nat × Nat :=
  let shortestNinther := 50
  let l := b - a
  let swaps := 0
  let i := a + l / 4 * 1
  let j := a + l / 4 * 2
  let k := a + l / 4 * 3
  if l ≥ 8 then
    let c := if l ≥ shortestNinther then choosePivot_ninther lt d i j k swaps else (i, j, k, swaps)
    median_func lt d c.1 c.2.1 c.2.2.1 c.2.2.2
  else (j, swaps)

/-- The `switch swaps` of `choosePivot_func`, with `maxSwaps = 4 * 3`. -/
def choosePivot_hint (swaps : Nat) : sortedHint :=
  let maxSwaps := 4 * 3
  if swaps = 0 then sortedHint.increasingHint
  else if swaps = maxSwaps then sortedHint.decreasingHint
  else sortedHint.unknownHint

/-- `choosePivot_func(data, a, b)`. -/
def choosePivot_func (lt : α → α → Bool) (d : List α) (a b : Nat) : Nat × sortedHint :=
  let r := choosePivot_median lt d a b
  (r.1, choosePivot_hint r.2)

/-- Loop of `reverseRange_func`: `for i < j { data.Swap(i, j); i++; j-- }`. -/
def reverseRange_loop : Nat → Nat → Nat → List α → List α
  | 0, _, _, d => d
  | f + 1, i, j, d => if i < j then reverseRange_loop f (i + 1) (j - 1) (Swap d i j) else d

/-- `reverseRange_func(data, a, b)`. -/
def reverseRange_func (d : List α) (a b : Nat) : List α :=
  reverseRange_loop (b - a) a (b - 1) d

/-- `for i < b && !data.Less(i, i-1) { i++ }`, at most `n` steps. -/
def scanOrdered (lt : α → α → Bool) (d : List α) (b : Nat) : Nat → Nat → Nat
  | 0, i => i
  | n + 1, i => if i < b && !Less lt d i (i - 1) then scanOrdered lt d b n (i + 1) else i

/-- `for j := i - 1; j >= 1; j-- { if !data.Less(j, j-1) { break }; data.Swap(j, j-1) }`. -/
def shiftLeft (lt : α → α → Bool) : Nat → List α → List α
  | 0, d => d
  | j + 1, d => if !Less lt d (j + 1) j then d else shiftLeft lt j (Swap d (j + 1) j)

/-- `for j := i + 1; j < b; j++ { if !data.Less(j, j-1) { break }; data.Swap(j, j-1) }`,
`n` iterations left. -/
def shiftRight (lt : α → α → Bool) : Nat → Nat → List α → List α
  | 0, _, d => d
  | n + 1, j, d => if !Less lt d j (j - 1) then d else shiftRight lt n (j + 1) (Swap d j (j - 1))

/-- Outer loop of `partialInsertionSort_func`, `steps` iterations left. -/
def partialInsertionSort_loop (lt : α → α → Bool) (a b : Nat) :
    Nat → Nat → List α → List α × Bool
  | 0, _, d => (d, false)
  | steps + 1, i, d =>
    let shortestShifting := 50
    let i := scanOrdered lt d b (b - i) i
    if i = b then (d, true)
    else if b - a < shortestShifting then (d, false)
    else
      let d := Swap d i (i - 1)
      let d := if i - a ≥ 2 then shiftLeft lt (i - 1) d else d
      let d := if b - i ≥ 2 then shiftRight lt (b - (i + 1)) (i + 1) d else d
      partialInsertionSort_loop lt a b steps i d

/-- `partialInsertionSort_func(data, a, b)`, with `maxSteps = 5`. -/
def partialInsertionSort_func (lt : α → α → Bool) (d : List α) (a b : Nat) : List α × Bool :=
  partialInsertionSort_loop lt a b 5 (a + 1) d

/-- `for i <= j && data.Less(i, a) { i++ }`, at most `n` steps. -/
def scanLess (lt : α → α → Bool) (d : List α) (a j : Nat) : Nat → Nat → Nat
  | 0, i => i
  | n + 1, i => if i ≤ j && Less lt d i a then scanLess lt d a j n (i + 1) else i

/-- `for i <= j && !data.Less(j, a) { j-- }` (`i ≥ 1` throughout, so `j` stays
non-negative). -/
def scanNotLess (lt : α → α → Bool) (d : List α) (a i : Nat) : Nat → Nat
  | 0 => 0
  | j + 1 => if i ≤ j + 1 && !Less lt d (j + 1) a then scanNotLess lt d a i j else j + 1

/-- The `for { ... }` loop of `partition_func`; returns the final `j` and data. -/
def partition_loop (lt : α → α → Bool) (a : Nat) : Nat → Nat → Nat → List α → Nat × List α
  | 0, _, j, d => (j, d)
  | f + 1, i, j, d =>
    let i := scanLess lt d a j (j + 1 - i) i
    let j := scanNotLess lt d a i j
    if i > j then (j, d)
    else partition_loop lt a f (i + 1) (j - 1) (Swap d i j)

/-- `partition_func(data, a, b, pivot)`: returns `(data, newpivot, alreadyPartitioned)`. -/
def partition_func (lt : α → α → Bool) (d : List α) (a b pivot : Nat) : List α × Nat × Bool :=
  let d := Swap d a pivot
  let i := a + 1
  let j := b - 1
  let i := scanLess lt d a j (j + 1 - i) i
  let j := scanNotLess lt d a i j
  if i > j then (Swap d j a, j, true)
  else
    let d := Swap d i j
    let (j, d) := partition_loop lt a (b - a) (i + 1) (j - 1) d
    (Swap d j a, j, false)

/-- `for i <= j && !data.Less(a, i) { i++ }`, at most `n` steps. -/
def scanNotGreater (lt : α → α → Bool) (d : List α) (a j : Nat) : Nat → Nat → Nat
  | 0, i => i
  | n + 1, i => if i ≤ j && !Less lt d a i then scanNotGreater lt d a j n (i + 1) else i

/-- `for i <= j && data.Less(a, j) { j-- }`. -/
def scanGreater (lt : α → α → Bool) (d : List α) (a i : Nat) : Nat → Nat
  | 0 => 0
  | j + 1 => if i ≤ j + 1 && Less lt d a (j + 1) then scanGreater lt d a i j else j + 1

/-- The `for { ... }` loop of `partitionEqual_func`; returns the final `i` and data. -/
def partitionEqual_loop (lt : α → α → Bool) (a : Nat) :
    Nat → Nat → Nat → List α → Nat × List α
  | 0, i, _, d => (i, d)
  | f + 1, i, j, d =>
    let i := scanNotGreater lt d a j (j + 1 - i) i
    let j := scanGreater lt d a i j
    if i > j then (i, d)
    else partitionEqual_loop lt a f (i + 1) (j - 1) (Swap d i j)

/-- `partitionEqual_func(data, a, b, pivot)`: returns `(data, newpivot)`. -/
def partitionEqual_func (lt : α → α → Bool) (d : List α) (a b pivot : Nat) : List α × Nat :=
  let d := Swap d a pivot
  let (i, d) := partitionEqual_loop lt a (b - a + 1) (a + 1) (b - 1) d
  (d, i)

/-- The part of one turn of the loop of `pdqsort_func` between the two early
returns and the partitioning: `breakPatterns_func` after an unbalanced
partition, the choice of the pivot, the reversal of a decreasing range and the
attempt of `partialInsertionSort_func`.  Returns the data, `limit`, the pivot
and whether the attempt sorted the range. -/
def pdqsort_prepare (lt : α → α → Bool) (d : List α) (a b limit : Nat)
    (wasBalanced wasPartitioned : Bool) : List α × Nat × Nat × Bool :=
  -- `if !wasBalanced { breakPatterns_func(data, a, b); limit-- }`
  let d := if !wasBalanced then breakPatterns_func d a b else d
  let limit := if !wasBalanced then limit - 1 else limit
  let chosen := choosePivot_func lt d a b
  -- `if hint == decreasingHint { reverseRange_func(data, a, b); ... }`
  let reversed := decide (chosen.2 = sortedHint.decreasingHint)
  let d := if reversed then reverseRange_func d a b else d
  let pivot := if reversed then (b - 1) - (chosen.1 - a) else chosen.1
  let hint := if reversed then sortedHint.increasingHint else chosen.2
  -- `if wasBalanced && wasPartitioned && hint == increasingHint { ... }`
  let tried :=
    if wasBalanced && wasPartitioned && decide (hint = sortedHint.increasingHint) then
      partialInsertionSort_func lt d a b
    else (d, false)
  (tried.1, limit, pivot, tried.2)

/-- `pdqsort_func(data, a, b, limit)`.  One unit of the first argument is spent
per loop iteration and per recursive call (each works on a strictly shorter
range, so `b - a` units are enough); `wasBalanced` and `wasPartitioned` are the
loop's two flags, both `true` on entry. -/
def pdqsort_func (lt : α → α → Bool) :
    Nat → List α → Nat → Nat → Nat → Bool → Bool → List α
  | 0, d, _, _, _, _, _ => d
  | fuel + 1, d, a, b, limit, wasBalanced, wasPartitioned =>
    let maxInsertion := 12
    let length := b - a
    if length ≤ maxInsertion then insertionSort_func lt d a b
    else if limit = 0 then heapSort_func lt d a b
    else
      let prepared := pdqsort_prepare lt d a b limit wasBalanced wasPartitioned
      let d := prepared.1
      let limit := prepared.2.1
      let pivot := prepared.2.2.1
      if prepared.2.2.2 then d
      else if a > 0 && !Less lt d (a - 1) pivot then
        let equal := partitionEqual_func lt d a b pivot
        pdqsort_func lt fuel equal.1 equal.2 b limit wasBalanced wasPartitioned
      else
        let parted := partition_func lt d a b pivot
        let d := parted.1
        let mid := parted.2.1
        let alreadyPartitioned := parted.2.2
        let leftLen := mid - a
        let rightLen := b - mid
        let balanceThreshold := length / 8
        if leftLen < rightLen then
          let d := pdqsort_func lt fuel d a mid limit true true
          pdqsort_func lt fuel d (mid + 1) b limit (decide (leftLen ≥ balanceThreshold))
            alreadyPartitioned
        else
          let d := pdqsort_func lt fuel d (mid + 1) b limit true true
          pdqsort_func lt fuel d a mid limit (decide (rightLen ≥ balanceThreshold))
            alreadyPartitioned

/-- `sort.Slice(x, less)`: `pdqsort_func(lessSwap{less, swap}, 0, length, bits.Len(length))`. -/
def Slice (lt : α → α → Bool) (x : List α) : List α :=
  let length := x.length
  let limit := bitsLen length
  pdqsort_func lt (length + 1) x 0 length limit true true

end GoSort

/-! ## Collaborators and the filesystem -/

/-- The format selector of `server.GenerateFeed` (`server.RSS`, `server.ATOM`,
`server.JSON`). -/
inductive FeedType where
  | RSS
  | ATOM
  | JSON
deriving DecidableEq, Repr

/-- The fields of `feeds.Link` and `feeds.Feed` that `generateFeedFiles` sets. -/
structure Link where
  Href : String
deriving DecidableEq, Repr

structure Feed where
  Title : String
  Link : Link
  Description : String
deriving DecidableEq, Repr

/-- Modelled from the spec: what the feed collaborator `server.GenerateFeed`,
which is outside `main.go`, returns when it does not fail.  The spec has it
return "serialized text" and the feed files hold "non-empty serialized
content": a text that is not empty. -/
structure SerializedText where
  text : String
  nonempty : text ≠ ""

/-- A serialized text followed by more text. -/
def SerializedText.append (header : SerializedText) (body : String) : SerializedText :=
  { text := header.text ++ body,
    nonempty := fun h => header.nonempty (by
      have h1 := congrArg String.data h
      simp only [String.data_append] at h1
      exact String.ext (List.append_eq_nil.mp h1).1) }

/-- The filesystem: `files` maps a path to its content, the entry nearest the
head being the current one (a write puts its entry at the head); `dirs` are the
directories made. -/
structure FS where
  files : List (String × String)
  dirs : List String
deriving DecidableEq, Repr

/-- The content of the file at `p`, when there is one. -/
def FS.read (fs : FS) (p : String) : Option String := fs.files.lookup p

/-- The state after a successful write of `content` to `p`. -/
def FS.write (fs : FS) (p content : String) : FS :=
  { fs with files := (p, content) :: fs.files }

/-- The state after a successful directory creation. -/
def FS.mkdir (fs : FS) (p : String) : FS :=
  { fs with dirs := p :: fs.dirs }

/-- Modelled from the spec: the collaborators of `main.go` that live outside it
(the site registry, the crawler, the feed serializer, the HTML table) and the
library and operating-system calls it makes, each as the spec describes it: a
function of its arguments that returns a value or fails.
* `LoopForAllSites`: the sites the registry visits, in registry order;
* `FetchArticlesForKey`: the articles of a site key, or an error;
* `GenerateFeed`: the serialized text (non-empty) for feed metadata, articles and format,
  or an error;
* `Now`: the value of the `n`-th `time.Now().Unix()`;
* `pathJoin`: `path.Join`;
* `ParseFiles`: the error of parsing the named template file, if any;
* `ExecuteTemplate`: the bytes rendered and the error, if any;
* `Create`, `MkdirAll`, `WriteFile`: the error of the operation in the current state, if any;
* `RemoveAll`: `none` when the removal succeeds, otherwise the paths that a
  failed removal leaves in place;
* `isUnder dir p`: whether path `p` lies in the tree rooted at `dir`;
* `Copy`: the state after `cp.Copy(src, dst)`. -/
structure Env where
  LoopForAllSites : List CauWebsite
  FetchArticlesForKey : String → Except String (List CAUArticle)
  GenerateFeed : Feed → List CAUArticle → FeedType → Except String SerializedText
  GetFeedHtmlTable : String
  Now : Nat → Int
  pathJoin : List String → String
  ParseFiles : String → Option String
  ExecuteTemplate : String → String → String → String × Option String
  Create : FS → String → Option String
  MkdirAll : FS → String → Option String
  WriteFile : FS → String → String → Option String
  RemoveAll : FS → String → Option (String → Bool)
  isUnder : String → String → Bool
  Copy : String → String → FS → FS

/-- How a procedure that may `panic` ends: normally, or with the panic's error;
either way with the filesystem as it then is. -/
inductive Outcome where
  | returned (fs : FS)
  | panicked (err : String) (fs : FS)
deriving DecidableEq, Repr

def Outcome.fs : Outcome → FS
  | .returned fs => fs
  | .panicked _ fs => fs

def Outcome.isReturned : Outcome → Bool
  | .returned _ => true
  | .panicked _ _ => false

/-- `os.RemoveAll(dir)`: on success nothing under `dir` is left; a failed
removal leaves the files it could not remove. -/
def removeAll (env : Env) (fs : FS) (dir : String) : FS × Option String :=
  match env.RemoveAll fs dir with
  | none =>
    ({ files := fs.files.filter (fun f => !env.isUnder dir f.1),
       dirs := fs.dirs.filter (fun p => !env.isUnder dir p) }, none)
  | some keep =>
    ({ files := fs.files.filter (fun f => !env.isUnder dir f.1 || keep f.1),
       dirs := fs.dirs.filter (fun p => !env.isUnder dir p || keep p) },
     some "unlinkat: permission denied")

/-! ## `main.go` -/

/-- The test of the loop in `getAllSeoulDormitoryArticles`. -/
def isSeoulDormitoryKey (key : String) : Bool :=
  key == "dormitory/seoul/bluemir" ||
    key == "dormitory/seoul/future_house" ||
    key == "dormitory/seoul/global_house"

/-- The `for _, item := range *items` loop of `getAllSeoulDormitoryArticles`. -/
def collectSeoulDormitoryArticles : List CrawlSuccessItem → List CAUArticle → List CAUArticle
  | [], articles => articles
  | item :: items, articles =>
    if isSeoulDormitoryKey item.SiteInfo.Key then
      collectSeoulDormitoryArticles items (articles ++ item.Articles)
    else collectSeoulDormitoryArticles items articles

/-- `articles[a].Date.Before(articles[b].Date)`. -/
def dateBefore (x y : CAUArticle) : Bool := decide (x.Date < y.Date)

/-- `getAllSeoulDormitoryArticles(siteInfo, items)`. -/
def getAllSeoulDormitoryArticles (_siteInfo : CauWebsite) (items : List CrawlSuccessItem) :
    List CAUArticle :=
  let articles := collectSeoulDormitoryArticles items []
  GoSort.Slice dateBefore articles

/-- `generateIndex(dir)`: the result of `ExecuteTemplate` is not looked at; the
deferred `Flush` and `Close` leave the rendered bytes in the file. -/
def generateIndex (env : Env) (dir : String) (fs : FS) : Outcome :=
  match env.ParseFiles "html/index.html" with
  | some err => .panicked err fs
  | none =>
    let indexPath := env.pathJoin [dir, "index.html"]
    match env.Create fs indexPath with
    | some err => .panicked err fs
    | none =>
      let fs := fs.write indexPath ""
      let (rendered, _) :=
        env.ExecuteTemplate "index.html" env.GetFeedHtmlTable "rss.puang.network"
      .returned (fs.write indexPath rendered)

/-- The `feedName` of `generateFeedFiles`. -/
def feedName (site : CauWebsite) : String :=
  if site.LongName ≠ "" then site.LongName else site.Name

/-- The `feeds.Feed` that `generateFeedFiles` builds for a success entry. -/
def feedOf (item : CrawlSuccessItem) : Feed :=
  { Title := feedName item.SiteInfo ++ " 공지사항",
    Link := { Href := item.SiteInfo.Url },
    Description := feedName item.SiteInfo ++ "의 공지사항입니다" }

/-- The body of the loop of `generateFeedFiles` for one success entry. -/
def generateFeedFilesItem (env : Env) (dir : String) (item : CrawlSuccessItem) (fs : FS) :
    Outcome :=
  let feed := feedOf item
  match env.GenerateFeed feed item.Articles FeedType.RSS with
  | .error err => .panicked err fs
  | .ok rss =>
    match env.GenerateFeed feed item.Articles FeedType.ATOM with
    | .error err => .panicked err fs
    | .ok atom =>
      match env.GenerateFeed feed item.Articles FeedType.JSON with
      | .error err => .panicked err fs
      | .ok json =>
        let feedDir := env.pathJoin [dir, "cau", item.SiteInfo.Key]
        match env.MkdirAll fs feedDir with
        | some err => .panicked err fs
        | none =>
          let fs := fs.mkdir feedDir
          match env.WriteFile fs (env.pathJoin [feedDir, "rss"]) rss.text with
          | some err => .panicked err fs
          | none =>
            let fs := fs.write (env.pathJoin [feedDir, "rss"]) rss.text
            match env.WriteFile fs (env.pathJoin [feedDir, "atom"]) atom.text with
            | some err => .panicked err fs
            | none =>
              let fs := fs.write (env.pathJoin [feedDir, "atom"]) atom.text
              match env.WriteFile fs (env.pathJoin [feedDir, "json"]) json.text with
              | some err => .panicked err fs
              | none => .returned (fs.write (env.pathJoin [feedDir, "json"]) json.text)

/-- The loop `for _, item := range items.Success` of `generateFeedFiles`. -/
def generateFeedFilesLoop (env : Env) (dir : String) : List CrawlSuccessItem → FS → Outcome
  | [], fs => .returned fs
  | item :: items, fs =>
    match generateFeedFilesItem env dir item fs with
    | .panicked err fs => .panicked err fs
    | .returned fs => generateFeedFilesLoop env dir items fs

/-- `generateFeedFiles(dir, items)`. -/
def generateFeedFiles (env : Env) (dir : String) (items : FeedDataResponse) (fs : FS) :
    Outcome :=
  generateFeedFilesLoop env dir items.Success fs

/-- `generateStatic(dir, items)`; the result of `cp.Copy` is not looked at. -/
def generateStatic (env : Env) (dir : String) (items : FeedDataResponse) (fs : FS) : Outcome :=
  match generateIndex env dir fs with
  | .panicked err fs => .panicked err fs
  | .returned fs =>
    match generateFeedFiles env dir items fs with
    | .panicked err fs => .panicked err fs
    | .returned fs => .returned (env.Copy "static" dir fs)

/-- The variables of `main` that the callback of `LoopForAllSites` updates, and
the number of `time.Now()` calls made so far. -/
structure CrawlState where
  success : List CrawlSuccessItem
  failures : List CrwalFailureItem
  allSeoulDormitory : CauWebsite
  clock : Nat
deriving DecidableEq, Repr

/-- The callback that `main` passes to `server.LoopForAllSites`. -/
def visitSite (env : Env) (st : CrawlState) (site : CauWebsite) : CrawlState :=
  if site.Key = "dormitory/seoul/all" then
    { st with allSeoulDormitory := site }
  else
    match env.FetchArticlesForKey site.Key with
    | .error _ =>
      { st with
        failures := st.failures ++ [{ SiteInfo := site, Timestamp := env.Now st.clock }],
        clock := st.clock + 1 }
    | .ok articles =>
      { st with
        success := st.success ++
          [{ SiteInfo := site, Articles := articles, Timestamp := env.Now st.clock }],
        clock := st.clock + 1 }

/-- The state of `main` after `server.LoopForAllSites` returns. -/
def crawlAllSites (env : Env) : CrawlState :=
  env.LoopForAllSites.foldl (visitSite env)
    { success := [], failures := [], allSeoulDormitory := CauWebsite.zero, clock := 0 }

/-- The `FeedDataResponse` `res` that `main` builds: the crawled entries and the
aggregate entry appended to `success`. -/
def crawl (env : Env) : FeedDataResponse :=
  let st := crawlAllSites env
  let success := st.success ++
    [{ SiteInfo := st.allSeoulDormitory,
       Articles := getAllSeoulDormitoryArticles st.allSeoulDormitory st.success,
       Timestamp := env.Now st.clock }]
  { Success := success, Failure := st.failures }

/-- The filesystem part of `main`: `os.RemoveAll` (result not looked at),
`os.MkdirAll`, `generateStatic`. -/
def main (env : Env) (fs : FS) : FeedDataResponse × Outcome :=
  let res := crawl env
  let outDir := "public"
  let (fs, _) := removeAll env fs outDir
  match env.MkdirAll fs outDir with
  | some err => (res, .panicked err fs)
  | none => (res, generateStatic env outDir res (fs.mkdir outDir))

end CauRss

/-! ## Specification-side definitions -/

namespace CauRss

/-- The key of the aggregate placeholder site. -/
def placeholderKey : String := "dormitory/seoul/all"

/-- The registry's sites that `main` crawls: all but the aggregate placeholder. -/
def crawledSites (env : Env) : List CauWebsite :=
  env.LoopForAllSites.filter (fun s => decide (s.Key ≠ placeholderKey))

/-- Whether the fetch of a key succeeds. -/
def fetchSucceeds (env : Env) (key : String) : Bool :=
  match env.FetchArticlesForKey key with
  | .ok _ => true
  | .error _ => false

/-- The articles a fetch returns (none for a failed fetch). -/
def fetchedArticles (env : Env) (key : String) : List CAUArticle :=
  match env.FetchArticlesForKey key with
  | .ok articles => articles
  | .error _ => []

/-- The three designated dormitory keys. -/
def seoulDormitoryKeys : List String :=
  ["dormitory/seoul/bluemir", "dormitory/seoul/future_house", "dormitory/seoul/global_house"]

/-- The filtered concatenation of the spec: the articles, in entry order, of
exactly the entries whose key is one of the three designated keys. -/
def dormitoryConcat (items : List CrawlSuccessItem) : List CAUArticle :=
  (items.filter (fun item => decide (item.SiteInfo.Key ∈ seoulDormitoryKeys))).flatMap
    (·.Articles)

/-- Number of entries of a success list that carry the site descriptor `s`. -/
def successCount (l : List CrawlSuccessItem) (s : CauWebsite) : Nat :=
  l.countP (fun e => decide (e.SiteInfo = s))

/-- Number of entries of a failure list that carry the site descriptor `s`. -/
def failureCount (l : List CrwalFailureItem) (s : CauWebsite) : Nat :=
  l.countP (fun e => decide (e.SiteInfo = s))

/-- The serialized text the feed collaborator returns for an entry and a format
(empty when the collaborator fails). -/
def serialized (env : Env) (item : CrawlSuccessItem) (ty : FeedType) : String :=
  match env.GenerateFeed (feedOf item) item.Articles ty with
  | .ok s => s.text
  | .error _ => ""

/-- The directory of an entry's feed files, `<dir>/cau/<key>`. -/
def feedDirOf (env : Env) (dir : String) (item : CrawlSuccessItem) : String :=
  env.pathJoin [dir, "cau", item.SiteInfo.Key]

/-- The three files of an entry, in the order they are written: path and content. -/
def feedWrites (env : Env) (dir : String) (item : CrawlSuccessItem) : List (String × String) :=
  [(env.pathJoin [feedDirOf env dir item, "rss"], serialized env item FeedType.RSS),
   (env.pathJoin [feedDirOf env dir item, "atom"], serialized env item FeedType.ATOM),
   (env.pathJoin [feedDirOf env dir item, "json"], serialized env item FeedType.JSON)]

/-- The three serializations of an entry succeed. -/
def serializationsSucceed (env : Env) (item : CrawlSuccessItem) : Bool :=
  (env.GenerateFeed (feedOf item) item.Articles FeedType.RSS).toBool &&
    (env.GenerateFeed (feedOf item) item.Articles FeedType.ATOM).toBool &&
    (env.GenerateFeed (feedOf item) item.Articles FeedType.JSON).toBool

/-- The filesystem after the directory creation and the first `n` file writes
of an entry. -/
def fsAfterWrites (env : Env) (dir : String) (item : CrawlSuccessItem) (fs : FS) (n : Nat) : FS :=
  { files := ((feedWrites env dir item).take n).reverse ++ fs.files,
    dirs := feedDirOf env dir item :: fs.dirs }

/-- In the words of the spec: for one entry, all three serializations, the
directory creation and all three file writes succeed, each filesystem operation
in the state its predecessors leave. -/
def entrySucceeds (env : Env) (dir : String) (item : CrawlSuccessItem) (fs : FS) : Bool :=
  serializationsSucceed env item &&
    (env.MkdirAll fs (feedDirOf env dir item)).isNone &&
    (env.WriteFile (fsAfterWrites env dir item fs 0)
      (env.pathJoin [feedDirOf env dir item, "rss"]) (serialized env item FeedType.RSS)).isNone &&
    (env.WriteFile (fsAfterWrites env dir item fs 1)
      (env.pathJoin [feedDirOf env dir item, "atom"]) (serialized env item FeedType.ATOM)).isNone &&
    (env.WriteFile (fsAfterWrites env dir item fs 2)
      (env.pathJoin [feedDirOf env dir item, "json"]) (serialized env item FeedType.JSON)).isNone

/-- In the words of the spec: every entry, in order, succeeds, each from the
filesystem its predecessors leave. -/
def allEntriesSucceed (env : Env) (dir : String) : List CrawlSuccessItem → FS → Bool
  | [], _ => true
  | item :: items, fs =>
    entrySucceeds env dir item fs &&
      allEntriesSucceed env dir items (fsAfterWrites env dir item fs 3)

/-- The filesystem after every entry of a list has been written. -/
def fsAfterEntries (env : Env) (dir : String) : List CrawlSuccessItem → FS → FS
  | [], fs => fs
  | item :: items, fs => fsAfterEntries env dir items (fsAfterWrites env dir item fs 3)

/-- The environment with the sites whose fetch fails taken out of the registry. -/
def withoutFailedSites (env : Env) : Env :=
  { env with
    LoopForAllSites := env.LoopForAllSites.filter
      fun s => decide (s.Key = placeholderKey) || fetchSucceeds env s.Key }

/-- Stability of a sort by date: for each date, the articles of that date come
in the same order in `sorted` as in `original`. -/
def StableByDate (original sorted : List CAUArticle) : Prop :=
  ∀ date : Int, sorted.filter (fun x => decide (x.Date = date)) =
    original.filter (fun x => decide (x.Date = date))

/-! ## Concrete inputs -/

/-- An environment in which every fetch fails and every other operation
succeeds; `path.Join` puts a slash between the non-empty elements. -/
def quietEnv (sites : List CauWebsite) : Env where
  LoopForAllSites := sites
  FetchArticlesForKey := fun _ => .error "fetch failed"
  GenerateFeed := fun feed _ ty =>
    .ok (match ty with
      | .RSS => (SerializedText.mk "<rss>" (by decide)).append feed.Title
      | .ATOM => (SerializedText.mk "<feed>" (by decide)).append feed.Title
      | .JSON => (SerializedText.mk "\x7b\x7d" (by decide)).append feed.Title)
  GetFeedHtmlTable := "<table/>"
  Now := fun n => 1700000000 + n
  pathJoin := fun elems => "/".intercalate (elems.filter fun e => e ≠ "")
  ParseFiles := fun _ => none
  ExecuteTemplate := fun _ table _ => ("<html>" ++ table, none)
  Create := fun _ _ => none
  MkdirAll := fun _ _ => none
  WriteFile := fun _ _ _ => none
  RemoveAll := fun _ _ => none
  isUnder := fun dir p => p == dir || (dir.data ++ "/".data).isPrefixOf p.data
  Copy := fun _ _ fs => fs

/-- A registry entry for the aggregate placeholder. -/
def placeholderA : CauWebsite :=
  { Key := "dormitory/seoul/all", Name := "A", LongName := "", Url := "https://a.example" }

/-- An article of the given title and date. -/
def article (title : String) (date : Int) : CAUArticle :=
  { Title := title, Url := "", Date := date }

/-- Thirteen articles of one dormitory site: twelve of date `1`, then one of
date `0`. -/
def thirteenArticles : List CAUArticle :=
  [article "t0" 1, article "t1" 1, article "t2" 1, article "t3" 1, article "t4" 1,
   article "t5" 1, article "t6" 1, article "t7" 1, article "t8" 1, article "t9" 1,
   article "t10" 1, article "t11" 1, article "z" 0]

def bluemir : CauWebsite :=
  { Key := "dormitory/seoul/bluemir", Name := "Bluemir", LongName := "Bluemir Hall",
    Url := "https://dorm.example/bluemir" }

def library : CauWebsite :=
  { Key := "library", Name := "Library", LongName := "", Url := "https://lib.example" }

/-- A success list with one dormitory entry of thirteen articles. -/
def thirteenItems : List CrawlSuccessItem :=
  [{ Articles := thirteenArticles, SiteInfo := bluemir, Timestamp := 0 }]

/-- A success list with a dormitory entry and another entry, three articles each. -/
def smallItems : List CrawlSuccessItem :=
  [{ Articles := [article "b1" 5, article "b2" 3, article "b3" 5], SiteInfo := bluemir,
     Timestamp := 0 },
   { Articles := [article "l1" 1, article "l2" 2, article "l3" 0], SiteInfo := library,
     Timestamp := 0 }]

/-- The quiet environment, except that the fetch of the library succeeds. -/
def libraryEnv : Env :=
  { quietEnv [bluemir, library, placeholderA] with
    FetchArticlesForKey := fun key =>
      if key = "library" then .ok [article "l1" 1, article "l2" 2] else .error "fetch failed" }

/-- The quiet environment, except that executing the index template fails
after rendering nothing. -/
def executeFailsEnv : Env :=
  { quietEnv [] with ExecuteTemplate := fun _ _ _ => ("", some "template: exec error") }

/-- The quiet environment, except that `os.RemoveAll` fails and removes nothing. -/
def removeFailsEnv : Env :=
  { quietEnv [] with RemoveAll := fun _ _ => some (fun _ => true) }

/-- A filesystem left by an earlier run: one stale feed file under `public`. -/
def staleFS : FS :=
  { files := [("public/cau/old_site/rss", "<rss>old")], dirs := ["public", "public/cau/old_site"] }

/-- The quiet environment, except that the Atom serialization of the library's
feed fails. -/
def atomFailsEnv : Env :=
  { quietEnv [] with
    GenerateFeed := fun feed _ ty =>
      match ty with
      | .RSS => .ok ((SerializedText.mk "<rss>" (by decide)).append feed.Title)
      | .ATOM =>
        if feed.Title = "Library 공지사항" then .error "atom: serialization failed"
        else .ok ((SerializedText.mk "<feed>" (by decide)).append feed.Title)
      | .JSON => .ok ((SerializedText.mk "\x7b\x7d" (by decide)).append feed.Title) }

/-- An empty output directory. -/
def emptyPublic : FS := { files := [], dirs := ["public"] }

def bluemirItem : CrawlSuccessItem :=
  { Articles := [], SiteInfo := bluemir, Timestamp := 0 }

/-- A second entry with the key of `bluemir` and another long name. -/
def bluemirAnnexItem : CrawlSuccessItem :=
  { Articles := [], SiteInfo := { bluemir with LongName := "Bluemir Annex" }, Timestamp := 0 }

def libraryItem : CrawlSuccessItem :=
  { Articles := [], SiteInfo := library, Timestamp := 0 }

end CauRss

/-! ## Predicates for the verification of `sort.Slice` -/

namespace CauRss.GoSort

variable {α : Type}

/-- The sort key of the element at index `i` (zero past the end). -/
def keyAt (key : α → Int) (d : List α) (i : Nat) : Int :=
  match d[i]? with
  | some x => key x
  | none => 0

/-- `Shuffled a b d e`: `e` comes from `d` by swaps of positions in `[a, b)`. -/
inductive Shuffled (a b : Nat) : List α → List α → Prop
  | refl (d : List α) : Shuffled a b d d
  | swap {d e : List α} (i j : Nat) :
      a ≤ i → i < b → a ≤ j → j < b → Shuffled a b (Swap d i j) e → Shuffled a b d e

/-- The keys at positions `[a, b)` are in non-decreasing order. -/
def SortedOn (key : α → Int) (a b : Nat) (d : List α) : Prop :=
  ∀ i j, a ≤ i → i < j → j < b → keyAt key d i ≤ keyAt key d j

/-- The element just below the range, if there is one, is no greater than any
element of the range: what `pdqsort_func` knows of `data[a-1]`. -/
def Floor (key : α → Int) (a b : Nat) (d : List α) : Prop :=
  a = 0 ∨ ∀ k, a ≤ k → k < b → keyAt key d (a - 1) ≤ keyAt key d k

/-- The keys at `[a, b)` are in order once position `p` is left out, and the key
at `p` is no greater than the keys to its right: the state of an insertion that
is moving the element at `p` to the left. -/
def SortedBut (key : α → Int) (a b p : Nat) (d : List α) : Prop :=
  (∀ i j, a ≤ i → i < j → j < b → i ≠ p → j ≠ p → keyAt key d i ≤ keyAt key d j) ∧
    ∀ j, p < j → j < b → keyAt key d p ≤ keyAt key d j

/-- The heap order of `heapSort_func` on the nodes `0 .. hi` stored from index
`first`, for the nodes whose parent is `lo` or later: no node is greater than
its parent `(c - 1) / 2`. -/
def HeapFrom (key : α → Int) (first lo hi : Nat) (d : List α) : Prop :=
  ∀ c, 1 ≤ c → c < hi → lo ≤ (c - 1) / 2 →
    keyAt key d (first + c) ≤ keyAt key d (first + (c - 1) / 2)

/-- The heap order with a hole at node `r`, as `siftDown_func` keeps it: every
node whose parent is not `r` is in order with its parent, and the children of
`r` are no greater than the parent of `r`. -/
def HeapExcept (key : α → Int) (first lo hi r : Nat) (d : List α) : Prop :=
  (∀ c, 1 ≤ c → c < hi → lo ≤ (c - 1) / 2 → (c - 1) / 2 ≠ r →
    keyAt key d (first + c) ≤ keyAt key d (first + (c - 1) / 2)) ∧
  (1 ≤ r → lo ≤ (r - 1) / 2 → ∀ c, 1 ≤ c → c < hi → (c - 1) / 2 = r →
    keyAt key d (first + c) ≤ keyAt key d (first + (r - 1) / 2))

end CauRss.GoSort

/-! ## The crawl loop -/

namespace CauRss

theorem visitSite_placeholder (env : Env) (st : CrawlState) (site : CauWebsite)
    (h : site.Key = placeholderKey) :
    visitSite env st site = { st with allSeoulDormitory := site } := by
  unfold visitSite
  rw [if_pos (by simpa [placeholderKey] using h)]

theorem visitSite_failure (env : Env) (st : CrawlState) (site : CauWebsite)
    (h : site.Key ≠ placeholderKey) (hf : fetchSucceeds env site.Key = false) :
    visitSite env st site =
      { st with
        failures := st.failures ++ [{ SiteInfo := site, Timestamp := env.Now st.clock }],
        clock := st.clock + 1 } := by
  unfold visitSite
  rw [if_neg (by simpa [placeholderKey] using h)]
  unfold fetchSucceeds at hf
  split <;> simp_all

theorem visitSite_success (env : Env) (st : CrawlState) (site : CauWebsite)
    (h : site.Key ≠ placeholderKey) (hf : fetchSucceeds env site.Key = true) :
    visitSite env st site =
      { st with
        success := st.success ++
          [{ SiteInfo := site, Articles := fetchedArticles env site.Key,
             Timestamp := env.Now st.clock }],
        clock := st.clock + 1 } := by
  unfold visitSite
  rw [if_neg (by simpa [placeholderKey] using h)]
  unfold fetchSucceeds at hf
  unfold fetchedArticles
  split <;> simp_all

/-- The success entries (descriptor and articles) after the loop has visited
`sites` from state `st`. -/
theorem foldl_visitSite_success (env : Env) (sites : List CauWebsite) (st : CrawlState) :
    ((sites.foldl (visitSite env) st).success.map fun e => (e.SiteInfo, e.Articles)) =
      (st.success.map fun e => (e.SiteInfo, e.Articles)) ++
        ((sites.filter fun s => decide (s.Key ≠ placeholderKey) && fetchSucceeds env s.Key).map
          fun s => (s, fetchedArticles env s.Key)) := by
  induction sites generalizing st with
  | nil => simp
  | cons s rest ih =>
    rw [List.foldl_cons, ih]
    by_cases hp : s.Key = placeholderKey
    · rw [visitSite_placeholder env st s hp]; simp [hp]
    · cases hf : fetchSucceeds env s.Key
      · rw [visitSite_failure env st s hp hf]; simp [hp, hf]
      · rw [visitSite_success env st s hp hf]; simp [hp, hf]

/-- The failure entries (descriptors) after the loop has visited `sites`. -/
theorem foldl_visitSite_failures (env : Env) (sites : List CauWebsite) (st : CrawlState) :
    ((sites.foldl (visitSite env) st).failures.map fun e => e.SiteInfo) =
      (st.failures.map fun e => e.SiteInfo) ++
        (sites.filter fun s => decide (s.Key ≠ placeholderKey) && !fetchSucceeds env s.Key) := by
  induction sites generalizing st with
  | nil => simp
  | cons s rest ih =>
    rw [List.foldl_cons, ih]
    by_cases hp : s.Key = placeholderKey
    · rw [visitSite_placeholder env st s hp]; simp [hp]
    · cases hf : fetchSucceeds env s.Key
      · rw [visitSite_failure env st s hp hf]; simp [hp, hf]
      · rw [visitSite_success env st s hp hf]; simp [hp, hf]

/-- The captured placeholder descriptor after the loop has visited `sites`: the
last visited site with the placeholder key, if any. -/
theorem foldl_visitSite_all (env : Env) (sites : List CauWebsite) (st : CrawlState) :
    (sites.foldl (visitSite env) st).allSeoulDormitory =
      ((sites.filter fun s => decide (s.Key = placeholderKey)).getLast?).getD
        st.allSeoulDormitory := by
  induction sites generalizing st with
  | nil => simp
  | cons s rest ih =>
    rw [List.foldl_cons, ih]
    by_cases hp : s.Key = placeholderKey
    · rw [visitSite_placeholder env st s hp]
      simp only [hp, decide_True, List.filter_cons_of_pos]
      cases hr : (rest.filter fun s => decide (s.Key = placeholderKey)) with
      | nil => simp
      | cons x xs => simp [List.getLast?_eq_getLast _ (List.cons_ne_nil x xs)]
    · cases hf : fetchSucceeds env s.Key
      · rw [visitSite_failure env st s hp hf]; simp [hp]
      · rw [visitSite_success env st s hp hf]; simp [hp]

end CauRss

/-! ## The result of the crawl -/

namespace CauRss

theorem crawlAllSites_success (env : Env) :
    ((crawlAllSites env).success.map fun e => (e.SiteInfo, e.Articles)) =
      ((env.LoopForAllSites.filter
          fun s => decide (s.Key ≠ placeholderKey) && fetchSucceeds env s.Key).map
        fun s => (s, fetchedArticles env s.Key)) := by
  unfold crawlAllSites
  rw [foldl_visitSite_success]
  simp

theorem crawlAllSites_failures (env : Env) :
    ((crawlAllSites env).failures.map fun e => e.SiteInfo) =
      (env.LoopForAllSites.filter
        fun s => decide (s.Key ≠ placeholderKey) && !fetchSucceeds env s.Key) := by
  unfold crawlAllSites
  rw [foldl_visitSite_failures]
  simp

theorem crawlAllSites_all (env : Env) :
    (crawlAllSites env).allSeoulDormitory =
      ((env.LoopForAllSites.filter fun s => decide (s.Key = placeholderKey)).getLast?).getD
        CauWebsite.zero := by
  unfold crawlAllSites
  rw [foldl_visitSite_all]

theorem crawl_Success (env : Env) :
    (crawl env).Success = (crawlAllSites env).success ++
      [{ SiteInfo := (crawlAllSites env).allSeoulDormitory,
         Articles := getAllSeoulDormitoryArticles (crawlAllSites env).allSeoulDormitory
           (crawlAllSites env).success,
         Timestamp := env.Now (crawlAllSites env).clock }] := rfl

theorem crawl_Failure (env : Env) : (crawl env).Failure = (crawlAllSites env).failures := rfl

theorem crawlAllSites_success_length (env : Env) :
    (crawlAllSites env).success.length =
      ((crawledSites env).filter fun s => fetchSucceeds env s.Key).length := by
  have h := congrArg List.length (crawlAllSites_success env)
  simp only [List.length_map] at h
  rw [h, crawledSites, List.filter_filter]
  congr 1
  apply List.filter_congr
  intro s _
  simp [Bool.and_comm]

theorem crawlAllSites_failures_length (env : Env) :
    (crawlAllSites env).failures.length =
      ((crawledSites env).filter fun s => !fetchSucceeds env s.Key).length := by
  have h := congrArg List.length (crawlAllSites_failures env)
  simp only [List.length_map] at h
  rw [h, crawledSites, List.filter_filter]
  congr 1
  apply List.filter_congr
  intro s _
  simp [Bool.and_comm]

theorem filter_length_add_filter_not {β : Type} (p : β → Bool) (l : List β) :
    (l.filter p).length + (l.filter fun x => !p x).length = l.length := by
  induction l with
  | nil => rfl
  | cons x xs ih =>
    cases hx : p x <;> simp [hx] <;> omega

/-- C3: after the orchestration of `main`, `len(Success) + len(Failure)` is the
number of configured sites, the placeholder `dormitory/seoul/all` not being
counted among the crawled sites and contributing exactly one entry to `Success`:
`Success` is the crawled successes followed by the one aggregate entry (appended
whether or not the registry visited the placeholder), `Failure` is the crawled
failures, and the two lengths add up to the number of non-placeholder sites plus
one; counting the registry's placeholder entries as well gives the registry's
length plus one. -/
theorem crawl_success_failure_length (env : Env) :
    (crawl env).Success.length + (crawl env).Failure.length = (crawledSites env).length + 1 ∧
    (crawl env).Success.length =
      ((crawledSites env).filter fun s => fetchSucceeds env s.Key).length + 1 ∧
    (crawl env).Failure.length =
      ((crawledSites env).filter fun s => !fetchSucceeds env s.Key).length ∧
    (crawl env).Success.length + (crawl env).Failure.length +
        env.LoopForAllSites.countP (fun s => decide (s.Key = placeholderKey)) =
      env.LoopForAllSites.length + 1 ∧
    (∃ aggregate : CrawlSuccessItem,
      (crawl env).Success = (crawlAllSites env).success ++ [aggregate] ∧
      aggregate.Articles =
        getAllSeoulDormitoryArticles aggregate.SiteInfo (crawlAllSites env).success ∧
      (crawlAllSites env).success.all (fun e => decide (e.SiteInfo.Key ≠ placeholderKey))) := by
  have hS : (crawl env).Success.length =
      ((crawledSites env).filter fun s => fetchSucceeds env s.Key).length + 1 := by
    rw [crawl_Success, List.length_append, crawlAllSites_success_length]; rfl
  have hF : (crawl env).Failure.length =
      ((crawledSites env).filter fun s => !fetchSucceeds env s.Key).length := by
    rw [crawl_Failure, crawlAllSites_failures_length]
  have hsum := filter_length_add_filter_not (fun s => fetchSucceeds env s.Key) (crawledSites env)
  have hcount : (crawledSites env).length +
      env.LoopForAllSites.countP (fun s => decide (s.Key = placeholderKey)) =
        env.LoopForAllSites.length := by
    have := filter_length_add_filter_not (fun s : CauWebsite => decide (s.Key = placeholderKey))
      env.LoopForAllSites
    rw [List.countP_eq_length_filter, crawledSites]
    have e : (env.LoopForAllSites.filter fun s => decide (s.Key ≠ placeholderKey)) =
        (env.LoopForAllSites.filter fun s => !decide (s.Key = placeholderKey)) := by
      apply List.filter_congr; intro s _; simp
    rw [e]; omega
  refine ⟨by omega, hS, hF, by omega, ⟨_, crawl_Success env, rfl, ?_⟩⟩
  rw [List.all_eq_true]
  intro e he
  have hm : (e.SiteInfo, e.Articles) ∈
      ((crawlAllSites env).success.map fun e => (e.SiteInfo, e.Articles)) :=
    List.mem_map_of_mem _ he
  rw [crawlAllSites_success] at hm
  simp only [List.mem_map, List.mem_filter, Prod.mk.injEq] at hm
  obtain ⟨s, ⟨_, hs⟩, hse, _⟩ := hm
  subst hse
  simp only [Bool.and_eq_true] at hs
  exact hs.1

end CauRss

/-! ## Every site in exactly one list -/

namespace CauRss

theorem successCount_append (l₁ l₂ : List CrawlSuccessItem) (s : CauWebsite) :
    successCount (l₁ ++ l₂) s = successCount l₁ s + successCount l₂ s := by
  simp [successCount, List.countP_append]

theorem successCount_crawled (env : Env) (s : CauWebsite) :
    successCount (crawlAllSites env).success s =
      (env.LoopForAllSites.filter
        fun s => decide (s.Key ≠ placeholderKey) && fetchSucceeds env s.Key).count s := by
  have h := congrArg (List.map Prod.fst) (crawlAllSites_success env)
  simp only [List.map_map] at h
  have h2 : (Prod.fst ∘ fun s : CauWebsite => (s, fetchedArticles env s.Key)) = id := by
    funext x; rfl
  rw [h2, List.map_id] at h
  rw [← h, successCount, List.count, List.countP_map]
  apply List.countP_congr
  intro e _
  simp

theorem failureCount_crawled (env : Env) (s : CauWebsite) :
    failureCount (crawlAllSites env).failures s =
      (env.LoopForAllSites.filter
        fun s => decide (s.Key ≠ placeholderKey) && !fetchSucceeds env s.Key).count s := by
  rw [← crawlAllSites_failures, failureCount, List.count, List.countP_map]
  apply List.countP_congr
  intro e _
  simp

theorem count_filter_of_nodup {β : Type} [DecidableEq β] (p : β → Bool) (l : List β)
    (hl : l.Nodup) (x : β) (hx : x ∈ l) :
    (l.filter p).count x = if p x then 1 else 0 := by
  by_cases hp : p x = true
  · rw [if_pos hp]
    exact List.count_eq_one_of_mem (hl.filter p) (List.mem_filter.mpr ⟨hx, hp⟩)
  · rw [if_neg hp]
    apply List.count_eq_zero_of_not_mem
    intro hmem
    exact hp (List.mem_filter.mp hmem).2

/-- When the placeholder key identifies one site of the registry, the captured
placeholder descriptor is that site. -/
theorem allSeoulDormitory_of_mem (env : Env)
    (hph : ∀ p ∈ env.LoopForAllSites, ∀ q ∈ env.LoopForAllSites,
      p.Key = placeholderKey → q.Key = placeholderKey → p = q) (p : CauWebsite)
    (hp : p ∈ env.LoopForAllSites) (hk : p.Key = placeholderKey) :
    (crawlAllSites env).allSeoulDormitory = p := by
  rw [crawlAllSites_all]
  have hmem : p ∈ env.LoopForAllSites.filter fun s => decide (s.Key = placeholderKey) :=
    List.mem_filter.mpr ⟨hp, by simpa using hk⟩
  cases hl : (env.LoopForAllSites.filter fun s => decide (s.Key = placeholderKey)).getLast? with
  | none =>
    rw [List.getLast?_eq_none_iff] at hl
    rw [hl] at hmem
    cases hmem
  | some q =>
    have hq := List.mem_of_getLast?_eq_some hl
    have hq' := List.mem_filter.mp hq
    have hqk : q.Key = placeholderKey := by simpa using hq'.2
    have := hph q hq'.1 p hp hqk hk
    simpa using this

/-- The captured placeholder descriptor is the zero value or a registry entry
with the placeholder key. -/
theorem allSeoulDormitory_cases (env : Env) :
    ((crawlAllSites env).allSeoulDormitory = CauWebsite.zero ∧
      ∀ p ∈ env.LoopForAllSites, p.Key ≠ placeholderKey) ∨
    ((crawlAllSites env).allSeoulDormitory ∈ env.LoopForAllSites ∧
      (crawlAllSites env).allSeoulDormitory.Key = placeholderKey) := by
  rw [crawlAllSites_all]
  cases hl : (env.LoopForAllSites.filter fun s => decide (s.Key = placeholderKey)).getLast? with
  | none =>
    left
    rw [List.getLast?_eq_none_iff] at hl
    refine ⟨rfl, fun p hp hk => ?_⟩
    have : p ∈ env.LoopForAllSites.filter fun s => decide (s.Key = placeholderKey) :=
      List.mem_filter.mpr ⟨hp, by simpa using hk⟩
    rw [hl] at this
    cases this
  | some q =>
    right
    have hq := List.mem_filter.mp (List.mem_of_getLast?_eq_some hl)
    exact ⟨hq.1, by simpa using hq.2⟩

/-- C4: for every crawl outcome and every registry as the spec has it (every
configured site is visited once, and the placeholder key identifies one site),
each configured site appears in exactly one of `Success` and `Failure`: a
non-placeholder site whose fetch fails once in `Failure` and not in `Success`, a
non-placeholder site whose fetch succeeds once in `Success`, with the returned
articles, and not in `Failure`, and the placeholder site once in `Success` and
never in `Failure`.  Sites other than the placeholder may share a key.  The
aggregate entry carries the captured placeholder descriptor, which is the Go
zero value when the registry lists no placeholder: for such a registry the site
is a descriptor other than the zero value. -/
theorem crawl_site_in_exactly_one (env : Env)
    (hnodup : env.LoopForAllSites.Nodup)
    (hph : ∀ p ∈ env.LoopForAllSites, ∀ q ∈ env.LoopForAllSites,
      p.Key = placeholderKey → q.Key = placeholderKey → p = q)
    (s : CauWebsite) (hs : s ∈ env.LoopForAllSites)
    (hagg : (∃ p ∈ env.LoopForAllSites, p.Key = placeholderKey) ∨ s ≠ CauWebsite.zero) :
    (if s.Key = placeholderKey then
        successCount (crawl env).Success s = 1 ∧ failureCount (crawl env).Failure s = 0
      else if fetchSucceeds env s.Key = true then
        successCount (crawl env).Success s = 1 ∧ failureCount (crawl env).Failure s = 0 ∧
          ∀ e ∈ (crawl env).Success, e.SiteInfo = s →
            env.FetchArticlesForKey s.Key = .ok e.Articles
      else
        failureCount (crawl env).Failure s = 1 ∧ successCount (crawl env).Success s = 0) := by
  have hS : successCount (crawl env).Success s =
      (if (decide (s.Key ≠ placeholderKey) && fetchSucceeds env s.Key) = true then 1 else 0) +
        (if (crawlAllSites env).allSeoulDormitory = s then 1 else 0) := by
    rw [crawl_Success, successCount_append, successCount_crawled,
      count_filter_of_nodup _ _ hnodup s hs]
    congr 1
    simp only [successCount, List.countP_cons, List.countP_nil, decide_eq_true_eq]
    simp
  have hF : failureCount (crawl env).Failure s =
      (if (decide (s.Key ≠ placeholderKey) && !fetchSucceeds env s.Key) = true then 1 else 0) := by
    rw [crawl_Failure, failureCount_crawled, count_filter_of_nodup _ _ hnodup s hs]
  by_cases hk : s.Key = placeholderKey
  · rw [if_pos hk, hS, hF, allSeoulDormitory_of_mem env hph s hs hk]
    simp [hk]
  · rw [if_neg hk]
    have hne : (crawlAllSites env).allSeoulDormitory ≠ s := by
      intro heq
      rcases allSeoulDormitory_cases env with ⟨hz, hno⟩ | ⟨_, hpk⟩
      · rcases hagg with ⟨p, hp, hpk⟩ | hzero
        · exact hno p hp hpk
        · exact hzero (by rw [← heq, hz])
      · exact hk (by rw [← heq]; exact hpk)
    cases hf : fetchSucceeds env s.Key
    · rw [if_neg (by simp), hS, hF]
      simp [hk, hf, hne]
    · rw [if_pos rfl, hS, hF]
      refine ⟨by simp [hk, hf, hne], by simp [hk, hf], ?_⟩
      intro e he hes
      rw [crawl_Success, List.mem_append] at he
      rcases he with he | he
      · have hm : (e.SiteInfo, e.Articles) ∈
            ((crawlAllSites env).success.map fun e => (e.SiteInfo, e.Articles)) :=
          List.mem_map_of_mem _ he
        rw [crawlAllSites_success] at hm
        simp only [List.mem_map, Prod.mk.injEq] at hm
        obtain ⟨t, _, hts, hta⟩ := hm
        rw [← hes, ← hts, ← hta]
        unfold fetchedArticles
        have hft : fetchSucceeds env t.Key = true := by rw [hts, hes]; exact hf
        unfold fetchSucceeds at hft
        split <;> simp_all
      · simp only [List.mem_singleton] at he
        rw [he] at hes
        exact absurd hes hne

/-- C4 (witness): the registry `bluemir`, `library`, placeholder, with only the
library's fetch succeeding, at the site `library`; the other two sites are
counted alongside. -/
theorem crawl_site_in_exactly_one_witness :
    (successCount (crawl libraryEnv).Success library = 1 ∧
      failureCount (crawl libraryEnv).Failure library = 0 ∧
      ∀ e ∈ (crawl libraryEnv).Success, e.SiteInfo = library →
        libraryEnv.FetchArticlesForKey library.Key = .ok e.Articles) ∧
    (failureCount (crawl libraryEnv).Failure bluemir = 1 ∧
      successCount (crawl libraryEnv).Success bluemir = 0) ∧
    (successCount (crawl libraryEnv).Success placeholderA = 1 ∧
      failureCount (crawl libraryEnv).Failure placeholderA = 0) := by
  have h := crawl_site_in_exactly_one libraryEnv (by decide) (by decide) library (by decide)
    (Or.inl ⟨placeholderA, by decide, by decide⟩)
  rw [if_neg (by decide), if_pos (by decide)] at h
  exact ⟨h, by decide, by decide⟩

end CauRss

/-! ## Feed metadata, index and output directory -/

namespace CauRss

/-- C5: the feed title that `generateFeedFiles` builds for a success entry is
the display name followed by " 공지사항" and the description is the display name
followed by "의 공지사항입니다", the display name being `LongName` when it is
non-empty and `Name` otherwise; `{Name: "A", LongName: ""}` gives "A 공지사항"
and `{Name: "A", LongName: "B Hall"}` gives "B Hall 공지사항". -/
theorem feedOf_title (item : CrawlSuccessItem) :
    (feedOf item).Title =
      (if item.SiteInfo.LongName = "" then item.SiteInfo.Name else item.SiteInfo.LongName) ++
        " 공지사항" ∧
    (feedOf item).Description =
      (if item.SiteInfo.LongName = "" then item.SiteInfo.Name else item.SiteInfo.LongName) ++
        "의 공지사항입니다" ∧
    (feedOf item).Link.Href = item.SiteInfo.Url ∧
    (feedOf { item with SiteInfo := { item.SiteInfo with Name := "A", LongName := "" } }).Title =
      "A 공지사항" ∧
    (feedOf { item with
        SiteInfo := { item.SiteInfo with Name := "A", LongName := "B Hall" } }).Title =
      "B Hall 공지사항" := by
  refine ⟨?_, ?_, rfl, ?_, ?_⟩
  · unfold feedOf feedName
    by_cases h : item.SiteInfo.LongName = "" <;> simp [h]
  · unfold feedOf feedName
    by_cases h : item.SiteInfo.LongName = "" <;> simp [h]
  · simp only [feedOf, feedName]
    rw [if_neg (by decide)]
    decide
  · simp only [feedOf, feedName]
    rw [if_pos (by decide)]
    decide

/-- A failure to parse the index template makes `generateIndex` panic. -/
theorem generateIndex_parse_failure (env : Env) (dir : String) (fs : FS) (err : String)
    (h : env.ParseFiles "html/index.html" = some err) :
    generateIndex env dir fs = .panicked err fs := by
  unfold generateIndex
  rw [h]

/-- With the template parsed and `index.html` created, `generateIndex` returns
normally whatever `ExecuteTemplate` reports. -/
theorem generateIndex_returns (env : Env) (dir : String) (fs : FS)
    (hparse : env.ParseFiles "html/index.html" = none)
    (hcreate : env.Create fs (env.pathJoin [dir, "index.html"]) = none) :
    (generateIndex env dir fs).isReturned = true := by
  unfold generateIndex
  rw [hparse]
  simp only [hcreate]
  rfl

/-- C8 (the code at the failing input): the template parses, `index.html` is
created and executing the template fails; `generateIndex` returns normally,
leaving an empty `index.html`. -/
theorem generateIndex_execute_failure_returns :
    (executeFailsEnv.ExecuteTemplate "index.html" executeFailsEnv.GetFeedHtmlTable
        "rss.puang.network").2 = some "template: exec error" ∧
    generateIndex executeFailsEnv "public" { files := [], dirs := ["public"] } =
      .returned { files := [("public/index.html", ""), ("public/index.html", "")],
                  dirs := ["public"] } := by
  decide

/-- C10 (the code at the failing input): `os.RemoveAll("public")` fails and
removes nothing, `os.MkdirAll` succeeds; the run completes and the stale file
`public/cau/old_site/rss` is still there with its old content, although the run
did not write it. -/
theorem main_stale_file_survives :
    (removeAll removeFailsEnv staleFS "public").2 ≠ none ∧
    (main removeFailsEnv staleFS).2.isReturned = true ∧
    (main removeFailsEnv staleFS).2.fs.read "public/cau/old_site/rss" = some "<rss>old" ∧
    (main removeFailsEnv staleFS).2.fs.files =
      [("public/cau/json", "\x7b\x7d 공지사항"), ("public/cau/atom", "<feed> 공지사항"),
       ("public/cau/rss", "<rss> 공지사항"), ("public/index.html", "<html><table/>"),
       ("public/index.html", ""), ("public/cau/old_site/rss", "<rss>old")] := by
  decide

end CauRss

/-! ## Writing the feed files -/

namespace CauRss

theorem fsAfterWrites_zero (env : Env) (dir : String) (item : CrawlSuccessItem) (fs : FS) :
    fsAfterWrites env dir item fs 0 = fs.mkdir (feedDirOf env dir item) := by
  simp [fsAfterWrites, FS.mkdir]

theorem fsAfterWrites_one (env : Env) (dir : String) (item : CrawlSuccessItem) (fs : FS) :
    fsAfterWrites env dir item fs 1 =
      (fs.mkdir (feedDirOf env dir item)).write
        (env.pathJoin [feedDirOf env dir item, "rss"]) (serialized env item FeedType.RSS) := by
  simp [fsAfterWrites, FS.mkdir, FS.write, feedWrites]

theorem fsAfterWrites_two (env : Env) (dir : String) (item : CrawlSuccessItem) (fs : FS) :
    fsAfterWrites env dir item fs 2 =
      ((fs.mkdir (feedDirOf env dir item)).write
        (env.pathJoin [feedDirOf env dir item, "rss"]) (serialized env item FeedType.RSS)).write
        (env.pathJoin [feedDirOf env dir item, "atom"]) (serialized env item FeedType.ATOM) := by
  simp [fsAfterWrites, FS.mkdir, FS.write, feedWrites]

theorem fsAfterWrites_three (env : Env) (dir : String) (item : CrawlSuccessItem) (fs : FS) :
    fsAfterWrites env dir item fs 3 =
      (((fs.mkdir (feedDirOf env dir item)).write
        (env.pathJoin [feedDirOf env dir item, "rss"]) (serialized env item FeedType.RSS)).write
        (env.pathJoin [feedDirOf env dir item, "atom"]) (serialized env item FeedType.ATOM)).write
        (env.pathJoin [feedDirOf env dir item, "json"]) (serialized env item FeedType.JSON) := by
  simp [fsAfterWrites, FS.mkdir, FS.write, feedWrites]

/-- What the loop body does for one entry: it returns after the directory
creation and the three writes when every operation succeeds; it panics leaving
the filesystem untouched when a serialization fails; otherwise it panics at the
directory creation or after fewer than three writes. -/
theorem generateFeedFilesItem_cases (env : Env) (dir : String) (item : CrawlSuccessItem)
    (fs : FS) :
    (entrySucceeds env dir item fs = true ∧
      generateFeedFilesItem env dir item fs = .returned (fsAfterWrites env dir item fs 3)) ∨
    (serializationsSucceed env item = false ∧ entrySucceeds env dir item fs = false ∧
      ∃ err, generateFeedFilesItem env dir item fs = .panicked err fs) ∨
    (serializationsSucceed env item = true ∧ entrySucceeds env dir item fs = false ∧
      ∃ err, generateFeedFilesItem env dir item fs = .panicked err fs ∨
        ∃ n, n < 3 ∧
          generateFeedFilesItem env dir item fs =
            .panicked err (fsAfterWrites env dir item fs n)) := by
  cases h1 : env.GenerateFeed (feedOf item) item.Articles FeedType.RSS with
  | error e =>
    right; left
    refine ⟨by simp [serializationsSucceed, h1, Except.toBool],
      by simp [entrySucceeds, serializationsSucceed, h1, Except.toBool], e, ?_⟩
    simp only [generateFeedFilesItem, h1]
  | ok rss =>
    cases h2 : env.GenerateFeed (feedOf item) item.Articles FeedType.ATOM with
    | error e =>
      right; left
      refine ⟨by simp [serializationsSucceed, h2, Except.toBool],
        by simp [entrySucceeds, serializationsSucceed, h2, Except.toBool], e, ?_⟩
      simp only [generateFeedFilesItem, h1, h2]
    | ok atom =>
      cases h3 : env.GenerateFeed (feedOf item) item.Articles FeedType.JSON with
      | error e =>
        right; left
        refine ⟨by simp [serializationsSucceed, h3, Except.toBool],
          by simp [entrySucceeds, serializationsSucceed, h3, Except.toBool], e, ?_⟩
        simp only [generateFeedFilesItem, h1, h2, h3]
      | ok json =>
        have s1 : serialized env item FeedType.RSS = rss.text := by simp [serialized, h1]
        have s2 : serialized env item FeedType.ATOM = atom.text := by simp [serialized, h2]
        have s3 : serialized env item FeedType.JSON = json.text := by simp [serialized, h3]
        have hser : serializationsSucceed env item = true := by
          simp [serializationsSucceed, h1, h2, h3, Except.toBool]
        have hgen : generateFeedFilesItem env dir item fs =
            match env.MkdirAll fs (feedDirOf env dir item) with
            | some err => .panicked err fs
            | none =>
              match env.WriteFile (fsAfterWrites env dir item fs 0)
                  (env.pathJoin [feedDirOf env dir item, "rss"]) rss.text with
              | some err => .panicked err (fsAfterWrites env dir item fs 0)
              | none =>
                match env.WriteFile (fsAfterWrites env dir item fs 1)
                    (env.pathJoin [feedDirOf env dir item, "atom"]) atom.text with
                | some err => .panicked err (fsAfterWrites env dir item fs 1)
                | none =>
                  match env.WriteFile (fsAfterWrites env dir item fs 2)
                      (env.pathJoin [feedDirOf env dir item, "json"]) json.text with
                  | some err => .panicked err (fsAfterWrites env dir item fs 2)
                  | none => .returned (fsAfterWrites env dir item fs 3) := by
          rw [fsAfterWrites_zero, fsAfterWrites_one, fsAfterWrites_two, fsAfterWrites_three,
            s1, s2, s3]
          simp only [generateFeedFilesItem, h1, h2, h3, feedDirOf]
        rw [hgen]
        unfold entrySucceeds
        rw [hser, s1, s2, s3]
        cases hm : env.MkdirAll fs (feedDirOf env dir item) with
        | some e => right; right; exact ⟨rfl, by simp, e, Or.inl rfl⟩
        | none =>
          cases hw1 : env.WriteFile (fsAfterWrites env dir item fs 0)
              (env.pathJoin [feedDirOf env dir item, "rss"]) rss.text with
          | some e => right; right; exact ⟨rfl, by simp, e, Or.inr ⟨0, by omega, rfl⟩⟩
          | none =>
            cases hw2 : env.WriteFile (fsAfterWrites env dir item fs 1)
                (env.pathJoin [feedDirOf env dir item, "atom"]) atom.text with
            | some e => right; right; exact ⟨rfl, by simp, e, Or.inr ⟨1, by omega, rfl⟩⟩
            | none =>
              cases hw3 : env.WriteFile (fsAfterWrites env dir item fs 2)
                  (env.pathJoin [feedDirOf env dir item, "json"]) json.text with
              | some e => right; right; exact ⟨rfl, by simp, e, Or.inr ⟨2, by omega, rfl⟩⟩
              | none => left; exact ⟨by simp, rfl⟩

theorem fsAfterEntries_files (env : Env) (dir : String) (items : List CrawlSuccessItem)
    (fs : FS) :
    (fsAfterEntries env dir items fs).files =
      (items.flatMap (feedWrites env dir)).reverse ++ fs.files := by
  induction items generalizing fs with
  | nil => simp [fsAfterEntries]
  | cons item items ih =>
    rw [fsAfterEntries, ih]
    simp [fsAfterWrites, feedWrites, List.flatMap_cons]

theorem fsAfterEntries_append (env : Env) (dir : String) (l₁ l₂ : List CrawlSuccessItem)
    (fs : FS) :
    fsAfterEntries env dir (l₁ ++ l₂) fs =
      fsAfterEntries env dir l₂ (fsAfterEntries env dir l₁ fs) := by
  induction l₁ generalizing fs with
  | nil => rfl
  | cons item items ih => simp [fsAfterEntries, ih]

/-- The loop returns exactly when every entry succeeds, and then leaves the
filesystem written by every entry. -/
theorem generateFeedFilesLoop_returned_iff (env : Env) (dir : String)
    (items : List CrawlSuccessItem) (fs fs' : FS) :
    generateFeedFilesLoop env dir items fs = .returned fs' ↔
      allEntriesSucceed env dir items fs = true ∧ fs' = fsAfterEntries env dir items fs := by
  induction items generalizing fs with
  | nil =>
    simp only [generateFeedFilesLoop, allEntriesSucceed, fsAfterEntries, Outcome.returned.injEq,
      true_and]
    exact eq_comm
  | cons item items ih =>
    rcases generateFeedFilesItem_cases env dir item fs with ⟨hs, hr⟩ | ⟨_, hs, err, hr⟩ |
        ⟨_, hs, err, hr | ⟨n, _, hr⟩⟩
    · simp only [generateFeedFilesLoop, hr, allEntriesSucceed, hs, Bool.true_and, fsAfterEntries]
      exact ih _
    · simp [generateFeedFilesLoop, hr, allEntriesSucceed, hs]
    · simp [generateFeedFilesLoop, hr, allEntriesSucceed, hs]
    · simp [generateFeedFilesLoop, hr, allEntriesSucceed, hs]

/-- The loop over entries that all succeed, followed by more entries, goes on
with those from the filesystem the first ones leave. -/
theorem generateFeedFilesLoop_append (env : Env) (dir : String)
    (pre post : List CrawlSuccessItem) (fs : FS)
    (h : allEntriesSucceed env dir pre fs = true) :
    generateFeedFilesLoop env dir (pre ++ post) fs =
      generateFeedFilesLoop env dir post (fsAfterEntries env dir pre fs) := by
  induction pre generalizing fs with
  | nil => rfl
  | cons item items ih =>
    simp only [allEntriesSucceed, Bool.and_eq_true] at h
    rcases generateFeedFilesItem_cases env dir item fs with ⟨_, hr⟩ | ⟨_, hs, _⟩ | ⟨_, hs, _⟩
    · simp only [List.cons_append, generateFeedFilesLoop, hr, fsAfterEntries]
      exact ih _ h.2
    · rw [h.1] at hs; cases hs
    · rw [h.1] at hs; cases hs

end CauRss

namespace CauRss

theorem allEntriesSucceed_mem (env : Env) (dir : String) (items : List CrawlSuccessItem)
    (fs : FS) (h : allEntriesSucceed env dir items fs = true) (item : CrawlSuccessItem)
    (hi : item ∈ items) : serializationsSucceed env item = true := by
  induction items generalizing fs with
  | nil => cases hi
  | cons x xs ih =>
    simp only [allEntriesSucceed, Bool.and_eq_true] at h
    rcases List.mem_cons.mp hi with rfl | hmem
    · have := h.1
      simp only [entrySucceeds, Bool.and_eq_true] at this
      exact this.1.1.1.1
    · exact ih _ h.2 hmem

theorem serialized_of_succeed (env : Env) (item : CrawlSuccessItem)
    (h : serializationsSucceed env item = true) :
    ∃ rss atom json : SerializedText,
      env.GenerateFeed (feedOf item) item.Articles FeedType.RSS = .ok rss ∧
      env.GenerateFeed (feedOf item) item.Articles FeedType.ATOM = .ok atom ∧
      env.GenerateFeed (feedOf item) item.Articles FeedType.JSON = .ok json ∧
      serialized env item FeedType.RSS = rss.text ∧
      serialized env item FeedType.ATOM = atom.text ∧
      serialized env item FeedType.JSON = json.text := by
  unfold serializationsSucceed at h
  unfold serialized
  cases h1 : env.GenerateFeed (feedOf item) item.Articles FeedType.RSS <;>
    cases h2 : env.GenerateFeed (feedOf item) item.Articles FeedType.ATOM <;>
    cases h3 : env.GenerateFeed (feedOf item) item.Articles FeedType.JSON <;>
    simp_all [Except.toBool]

theorem lookup_append_of_mem (l rest : List (String × String))
    (hl : (l.map Prod.fst).Nodup) (w : String × String) (hw : w ∈ l) :
    (l ++ rest).lookup w.1 = some w.2 := by
  induction l with
  | nil => cases hw
  | cons x xs ih =>
    obtain ⟨k, v⟩ := x
    simp only [List.map_cons, List.nodup_cons] at hl
    rcases List.mem_cons.mp hw with rfl | hmem
    · simp [List.lookup]
    · have hne : w.1 ≠ k := by
        intro heq
        exact hl.1 (heq ▸ List.mem_map_of_mem Prod.fst hmem)
      have : (w.1 == k) = false := by simpa using hne
      simp only [List.cons_append, List.lookup, this]
      exact ih hl.2 hmem

/-- C7: `generateFeedFiles(dir, items)` completes when every operation succeeds,
and when it completes, the files it has written are, for every entry of
`items.Success` in order, exactly the three files `rss`, `atom` and `json` under
`<dir>/cau/<key>`, holding the RSS, Atom and JSON serializations that the feed
collaborator returned for the entry's feed metadata and articles, each of them
non-empty; the filesystem maps each of these paths to that content when no two
of the written paths coincide. -/
theorem generateFeedFiles_writes (env : Env) (dir : String) (items : FeedDataResponse)
    (fs : FS) :
    (allEntriesSucceed env dir items.Success fs = true →
      ∃ fs', generateFeedFiles env dir items fs = .returned fs') ∧
    ∀ fs', generateFeedFiles env dir items fs = .returned fs' →
      fs'.files = (items.Success.flatMap (feedWrites env dir)).reverse ++ fs.files ∧
      (∀ item ∈ items.Success, ∃ rss atom json : SerializedText,
        env.GenerateFeed (feedOf item) item.Articles FeedType.RSS = .ok rss ∧
        env.GenerateFeed (feedOf item) item.Articles FeedType.ATOM = .ok atom ∧
        env.GenerateFeed (feedOf item) item.Articles FeedType.JSON = .ok json ∧
        rss.text ≠ "" ∧ atom.text ≠ "" ∧ json.text ≠ "" ∧
        feedWrites env dir item =
          [(env.pathJoin [env.pathJoin [dir, "cau", item.SiteInfo.Key], "rss"], rss.text),
           (env.pathJoin [env.pathJoin [dir, "cau", item.SiteInfo.Key], "atom"], atom.text),
           (env.pathJoin [env.pathJoin [dir, "cau", item.SiteInfo.Key], "json"], json.text)] ∧
        (((items.Success.flatMap (feedWrites env dir)).map Prod.fst).Nodup →
          fs'.read (env.pathJoin [env.pathJoin [dir, "cau", item.SiteInfo.Key], "rss"]) =
              some rss.text ∧
            fs'.read (env.pathJoin [env.pathJoin [dir, "cau", item.SiteInfo.Key], "atom"]) =
              some atom.text ∧
            fs'.read (env.pathJoin [env.pathJoin [dir, "cau", item.SiteInfo.Key], "json"]) =
              some json.text)) := by
  refine ⟨fun hall => ⟨_, (generateFeedFilesLoop_returned_iff env dir _ fs _).mpr ⟨hall, rfl⟩⟩,
    ?_⟩
  intro fs' h
  unfold generateFeedFiles at h
  rw [generateFeedFilesLoop_returned_iff] at h
  obtain ⟨hall, hfs⟩ := h
  have hfiles : fs'.files = (items.Success.flatMap (feedWrites env dir)).reverse ++ fs.files := by
    rw [hfs, fsAfterEntries_files]
  refine ⟨hfiles, ?_⟩
  intro item hitem
  obtain ⟨rss, atom, json, h1, h2, h3, s1, s2, s3⟩ :=
    serialized_of_succeed env item (allEntriesSucceed_mem env dir _ fs hall item hitem)
  refine ⟨rss, atom, json, h1, h2, h3, rss.nonempty, atom.nonempty, json.nonempty, ?_, ?_⟩
  · simp only [feedWrites, feedDirOf, s1, s2, s3]
  intro hnodup
  have hnodup' : (((items.Success.flatMap (feedWrites env dir)).reverse).map Prod.fst).Nodup := by
    rw [List.map_reverse]
    exact List.nodup_reverse.mpr hnodup
  have hmem : ∀ w ∈ feedWrites env dir item,
      w ∈ (items.Success.flatMap (feedWrites env dir)).reverse := by
    intro w hw
    rw [List.mem_reverse, List.mem_flatMap]
    exact ⟨item, hitem, hw⟩
  have hread : ∀ w ∈ feedWrites env dir item, fs'.read w.1 = some w.2 := by
    intro w hw
    unfold FS.read
    rw [hfiles]
    exact lookup_append_of_mem _ _ hnodup' w (hmem w hw)
  rw [← s1, ← s2, ← s3]
  exact ⟨hread (env.pathJoin [feedDirOf env dir item, "rss"], serialized env item FeedType.RSS)
      (by simp [feedWrites]),
    hread (env.pathJoin [feedDirOf env dir item, "atom"], serialized env item FeedType.ATOM)
      (by simp [feedWrites]),
    hread (env.pathJoin [feedDirOf env dir item, "json"], serialized env item FeedType.JSON)
      (by simp [feedWrites])⟩

/-- C7 (witness): the quiet environment writing the feed files of two entries
into an empty `public`: the run completes, the six files are written, none is
empty, and the filesystem holds the serialization at each path. -/
theorem generateFeedFiles_writes_witness :
    ∃ fs', generateFeedFiles (quietEnv []) "public"
        { Success := [bluemirItem, libraryItem], Failure := [] } emptyPublic = .returned fs' ∧
      fs'.files =
        [("public/cau/library/json", "\x7b\x7dLibrary 공지사항"),
         ("public/cau/library/atom", "<feed>Library 공지사항"),
         ("public/cau/library/rss", "<rss>Library 공지사항"),
         ("public/cau/dormitory/seoul/bluemir/json", "\x7b\x7dBluemir Hall 공지사항"),
         ("public/cau/dormitory/seoul/bluemir/atom", "<feed>Bluemir Hall 공지사항"),
         ("public/cau/dormitory/seoul/bluemir/rss", "<rss>Bluemir Hall 공지사항")] ∧
      fs'.read "public/cau/dormitory/seoul/bluemir/rss" = some "<rss>Bluemir Hall 공지사항" ∧
      ∀ w ∈ fs'.files, w.2 ≠ "" :=
  let thm := generateFeedFiles_writes (quietEnv []) "public"
    { Success := [bluemirItem, libraryItem], Failure := [] } emptyPublic
  let ⟨fs', hfs'⟩ := thm.1 (by decide)
  have hf : fs'.files = _ := ((thm.2 fs' hfs').1).trans (by decide)
  ⟨fs', hfs', hf, by unfold FS.read; rw [hf]; decide, by rw [hf]; decide⟩

/-- C9: `generateFeedFiles` completes normally exactly when, for every success
entry in order, the three serializations, the directory creation and the three
file writes all succeed; at the first entry with a failing operation it panics,
having written the files of the entries before it and at most the first two
files of that entry, and nothing of any later entry; and when it is a
serialization of that entry that fails, nothing of that entry has been written
or created. -/
theorem generateFeedFiles_aborts_at_first_failure (env : Env) (dir : String)
    (items : FeedDataResponse) (fs : FS) :
    ((generateFeedFiles env dir items fs).isReturned = true ↔
      allEntriesSucceed env dir items.Success fs = true) ∧
    (∀ pre e post, items.Success = pre ++ e :: post →
      allEntriesSucceed env dir pre fs = true →
      entrySucceeds env dir e (fsAfterEntries env dir pre fs) = false →
      ∃ err st, generateFeedFiles env dir items fs = .panicked err st ∧
        generateFeedFiles env dir { items with Success := pre ++ [e] } fs = .panicked err st ∧
        (∃ n, n < 3 ∧ st.files = ((feedWrites env dir e).take n).reverse ++
          ((pre.flatMap (feedWrites env dir)).reverse ++ fs.files)) ∧
        (serializationsSucceed env e = false → st = fsAfterEntries env dir pre fs)) := by
  constructor
  · unfold generateFeedFiles
    constructor
    · intro h
      cases hr : generateFeedFilesLoop env dir items.Success fs with
      | returned fs' => exact ((generateFeedFilesLoop_returned_iff env dir _ fs fs').mp hr).1
      | panicked err st => rw [hr] at h; cases h
    · intro h
      rw [(generateFeedFilesLoop_returned_iff env dir _ fs _).mpr ⟨h, rfl⟩]
      rfl
  · intro pre e post hitems hpre he
    unfold generateFeedFiles
    simp only [hitems]
    rw [generateFeedFilesLoop_append env dir pre (e :: post) fs hpre,
      generateFeedFilesLoop_append env dir pre [e] fs hpre]
    rcases generateFeedFilesItem_cases env dir e (fsAfterEntries env dir pre fs) with
      ⟨hs, _⟩ | ⟨hser, _, err, hr⟩ | ⟨hser, _, err, hr | ⟨n, hn, hr⟩⟩
    · rw [he] at hs; cases hs
    · refine ⟨err, fsAfterEntries env dir pre fs, by simp only [generateFeedFilesLoop, hr],
        by simp only [generateFeedFilesLoop, hr], ⟨0, by omega, ?_⟩, fun _ => rfl⟩
      simp [fsAfterEntries_files]
    · refine ⟨err, fsAfterEntries env dir pre fs, by simp only [generateFeedFilesLoop, hr],
        by simp only [generateFeedFilesLoop, hr], ⟨0, by omega, ?_⟩, fun h => ?_⟩
      · simp [fsAfterEntries_files]
      · exact absurd h (by simp [hser])
    · refine ⟨err, fsAfterWrites env dir e (fsAfterEntries env dir pre fs) n,
        by simp only [generateFeedFilesLoop, hr],
        by simp only [generateFeedFilesLoop, hr], ⟨n, hn, ?_⟩, fun h => ?_⟩
      · simp [fsAfterWrites, fsAfterEntries_files]
      · exact absurd h (by simp [hser])

end CauRss

namespace CauRss

/-- C9 (witness): three entries, the Atom serialization of the second failing;
`generateFeedFiles` panics with the files of the first entry written and
nothing of the second or third. -/
theorem generateFeedFiles_aborts_at_first_failure_witness :
    (allEntriesSucceed atomFailsEnv "public" [bluemirItem] emptyPublic = true ∧
      serializationsSucceed atomFailsEnv libraryItem = false) ∧
    ∃ err st,
      generateFeedFiles atomFailsEnv "public"
        { Success := [bluemirItem, libraryItem, bluemirAnnexItem], Failure := [] }
        emptyPublic = .panicked err st ∧
      st =
        { files := [("public/cau/dormitory/seoul/bluemir/json", "\x7b\x7dBluemir Hall 공지사항"),
                    ("public/cau/dormitory/seoul/bluemir/atom", "<feed>Bluemir Hall 공지사항"),
                    ("public/cau/dormitory/seoul/bluemir/rss", "<rss>Bluemir Hall 공지사항")],
          dirs := ["public/cau/dormitory/seoul/bluemir", "public"] } :=
  ⟨by decide,
    let ⟨err, st, h1, _, _, h4⟩ :=
      (generateFeedFiles_aborts_at_first_failure atomFailsEnv "public"
        { Success := [bluemirItem, libraryItem, bluemirAnnexItem], Failure := [] }
        emptyPublic).2 [bluemirItem] libraryItem [bluemirAnnexItem] rfl (by decide) (by decide)
    ⟨err, st, h1, (h4 (by decide)).trans (by decide)⟩⟩

end CauRss

/-! ## `sort.Slice`: swaps and ranges -/

namespace CauRss.GoSort

variable {α : Type}

theorem Swap_length (d : List α) (i j : Nat) : (Swap d i j).length = d.length := by
  unfold Swap
  split <;> simp

theorem Swap_getElem? (d : List α) (i j : Nat) (hi : i < d.length) (hj : j < d.length)
    (k : Nat) :
    (Swap d i j)[k]? = if k = j then d[i]? else if k = i then d[j]? else d[k]? := by
  unfold Swap
  rw [List.getElem?_eq_getElem hi, List.getElem?_eq_getElem hj]
  simp only [List.getElem?_set, List.length_set]
  by_cases hkj : k = j
  · subst hkj; simp [hj]
  · by_cases hki : k = i
    · subst hki
      simp [hkj, hi, Ne.symm hkj]
    · simp [hkj, hki, Ne.symm hkj, Ne.symm hki]

theorem Swap_eq_self (d : List α) (i j : Nat) (h : ¬(i < d.length ∧ j < d.length)) :
    Swap d i j = d := by
  unfold Swap
  split
  · rename_i x y hx hy
    have hi := (List.getElem?_eq_some_iff.mp hx).1
    have hj := (List.getElem?_eq_some_iff.mp hy).1
    exact absurd ⟨hi, hj⟩ h
  · rfl

theorem set_set_perm_aux (x y : α) (l : List α) (j : Nat) (hj : l[j]? = some y) :
    (y :: l.set j x).Perm (x :: l) := by
  induction l generalizing j with
  | nil => simp at hj
  | cons z l ih =>
    cases j with
    | zero =>
      simp only [List.getElem?_cons_zero, Option.some.injEq] at hj
      subst hj
      exact List.Perm.swap _ _ _
    | succ j =>
      simp only [List.getElem?_cons_succ] at hj
      simp only [List.set_cons_succ]
      exact ((List.Perm.swap z y _).trans ((ih j hj).cons z)).trans (List.Perm.swap x z _)

theorem Swap_perm (d : List α) (i j : Nat) : (Swap d i j).Perm d := by
  unfold Swap
  split
  · rename_i x y hx hy
    induction d generalizing i j with
    | nil => simp at hx
    | cons z l ih =>
      cases i with
      | zero =>
        simp only [List.getElem?_cons_zero, Option.some.injEq] at hx
        subst hx
        cases j with
        | zero =>
          simp only [List.getElem?_cons_zero, Option.some.injEq] at hy
          subst hy
          simp
        | succ j =>
          simp only [List.getElem?_cons_succ] at hy
          simp only [List.set_cons_zero, List.set_cons_succ]
          exact set_set_perm_aux _ _ _ _ hy
      | succ i =>
        simp only [List.getElem?_cons_succ] at hx
        cases j with
        | zero =>
          simp only [List.getElem?_cons_zero, Option.some.injEq] at hy
          subst hy
          simp only [List.set_cons_zero, List.set_cons_succ]
          exact set_set_perm_aux _ _ _ _ hx
        | succ j =>
          simp only [List.getElem?_cons_succ] at hy
          simp only [List.set_cons_succ]
          exact (ih i j hx hy).cons z
  · exact List.Perm.refl _

section Keyed

variable (key : α → Int)

theorem keyAt_eq_of_getElem? (d e : List α) (i j : Nat) (h : d[i]? = e[j]?) :
    keyAt key d i = keyAt key e j := by
  unfold keyAt; rw [h]

theorem keyAt_Swap (d : List α) (i j : Nat) (hi : i < d.length) (hj : j < d.length) (k : Nat) :
    keyAt key (Swap d i j) k =
      if k = j then keyAt key d i else if k = i then keyAt key d j else keyAt key d k := by
  unfold keyAt
  rw [Swap_getElem? d i j hi hj k]
  by_cases hkj : k = j
  · simp only [hkj, if_true]
  · by_cases hki : k = i
    · subst hki
      simp only [hkj, if_false, if_true]
    · simp only [hkj, hki, if_false]

theorem keyAt_Swap_left (d : List α) (i j : Nat) (hi : i < d.length) (hj : j < d.length) :
    keyAt key (Swap d i j) i = keyAt key d j := by
  rw [keyAt_Swap key d i j hi hj]
  by_cases h : i = j
  · subst h; simp
  · simp [h]

theorem keyAt_Swap_right (d : List α) (i j : Nat) (hi : i < d.length) (hj : j < d.length) :
    keyAt key (Swap d i j) j = keyAt key d i := by
  rw [keyAt_Swap key d i j hi hj]; simp

theorem keyAt_Swap_other (d : List α) (i j k : Nat) (hki : k ≠ i) (hkj : k ≠ j) :
    keyAt key (Swap d i j) k = keyAt key d k := by
  by_cases h : i < d.length ∧ j < d.length
  · rw [keyAt_Swap key d i j h.1 h.2]; simp [hki, hkj]
  · rw [Swap_eq_self d i j h]

variable (lt : α → α → Bool)

theorem Less_eq (hlt : ∀ x y, lt x y = decide (key x < key y)) (d : List α) (i j : Nat)
    (hi : i < d.length) (hj : j < d.length) :
    Less lt d i j = decide (keyAt key d i < keyAt key d j) := by
  unfold Less keyAt
  rw [List.getElem?_eq_getElem hi, List.getElem?_eq_getElem hj]
  exact hlt _ _

/-! ### `Shuffled` -/

theorem Shuffled.one (a b : Nat) (d : List α) (i j : Nat) (hai : a ≤ i) (hib : i < b)
    (haj : a ≤ j) (hjb : j < b) : Shuffled a b d (Swap d i j) :=
  Shuffled.swap i j hai hib haj hjb (Shuffled.refl _)

theorem Shuffled.trans {a b : Nat} {d e f : List α} (h₁ : Shuffled a b d e)
    (h₂ : Shuffled a b e f) : Shuffled a b d f := by
  induction h₁ with
  | refl => exact h₂
  | swap i j hai hib haj hjb _ ih => exact Shuffled.swap i j hai hib haj hjb (ih h₂)

theorem Shuffled.mono {a b a' b' : Nat} {d e : List α} (h : Shuffled a b d e) (ha : a' ≤ a)
    (hb : b ≤ b') : Shuffled a' b' d e := by
  induction h with
  | refl => exact Shuffled.refl _
  | swap i j hai hib haj hjb _ ih =>
    exact Shuffled.swap i j (by omega) (by omega) (by omega) (by omega) ih

theorem Shuffled.length_eq {a b : Nat} {d e : List α} (h : Shuffled a b d e) :
    e.length = d.length := by
  induction h with
  | refl => rfl
  | swap i j _ _ _ _ _ ih => rw [ih, Swap_length]

theorem Shuffled.perm {a b : Nat} {d e : List α} (h : Shuffled a b d e) : e.Perm d := by
  induction h with
  | refl => exact List.Perm.refl _
  | swap i j _ _ _ _ _ ih => exact ih.trans (Swap_perm _ _ _)

theorem Shuffled.keyAt_outside {a b : Nat} {d e : List α} (h : Shuffled a b d e) (k : Nat)
    (hk : k < a ∨ b ≤ k) : keyAt key e k = keyAt key d k := by
  induction h with
  | refl => rfl
  | swap i j _ _ _ _ _ ih =>
    rw [ih, keyAt_Swap_other key _ i j k (by omega) (by omega)]

/-- A property of all keys in the range survives swaps inside the range. -/
theorem Shuffled.forall_range {a b : Nat} {d e : List α} (h : Shuffled a b d e)
    (P : Int → Prop) (hP : ∀ k, a ≤ k → k < b → P (keyAt key d k)) :
    ∀ k, a ≤ k → k < b → P (keyAt key e k) := by
  induction h with
  | refl => exact hP
  | @swap d e i j hai hib haj hjb _ ih =>
    apply ih
    intro k hak hkb
    by_cases h : i < d.length ∧ j < d.length
    · rw [keyAt_Swap key d i j h.1 h.2]
      split
      · exact hP i hai hib
      · split
        · exact hP j haj hjb
        · exact hP k hak hkb
    · rw [Swap_eq_self d i j h]; exact hP k hak hkb

theorem Shuffled.sortedOn_outside {a b : Nat} {d e : List α} (h : Shuffled a b d e)
    (p q : Nat) (hpq : q ≤ a ∨ b ≤ p) (hs : SortedOn key p q d) : SortedOn key p q e := by
  intro i j hi hij hj
  rw [h.keyAt_outside key i (by omega), h.keyAt_outside key j (by omega)]
  exact hs i j hi hij hj

theorem Shuffled.floor {a b : Nat} {d e : List α} (h : Shuffled a b d e)
    (hf : Floor key a b d) : Floor key a b e := by
  rcases hf with h0 | hf
  · exact Or.inl h0
  · by_cases h0 : a = 0
    · exact Or.inl h0
    · right
      rw [h.keyAt_outside key (a - 1) (by omega)]
      exact h.forall_range key (fun v => keyAt key d (a - 1) ≤ v) hf

end Keyed

end CauRss.GoSort

/-! ## `insertionSort_func` -/

namespace CauRss.GoSort

variable {α : Type}

section Keyed

variable (key : α → Int) (lt : α → α → Bool)

theorem SortedBut.swap_down (a b p : Nat) (d : List α) (hb : b ≤ d.length) (hap : a ≤ p)
    (hp : p + 1 < b) (h : SortedBut key a b (p + 1) d) (hlt : keyAt key d (p + 1) < keyAt key d p) :
    SortedBut key a b p (Swap d (p + 1) p) := by
  have h1 : p + 1 < d.length := by omega
  have h2 : p < d.length := by omega
  constructor
  · intro i j hai hij hjb hip hjp
    rw [keyAt_Swap key d _ _ h1 h2 i, keyAt_Swap key d _ _ h1 h2 j]
    simp only [hip, hjp, if_false]
    by_cases hi : i = p + 1
    · have hj : j ≠ p + 1 := by omega
      simp only [hi, hj, if_true, if_false]
      exact h.1 p j (by omega) (by omega) hjb (by omega) hj
    · by_cases hj : j = p + 1
      · simp only [hi, hj, if_true, if_false]
        exact h.1 i p hai (by omega) (by omega) hi (by omega)
      · simp only [hi, hj, if_false]
        exact h.1 i j hai hij hjb hi hj
  · intro j hpj hjb
    rw [keyAt_Swap_right key d _ _ h1 h2, keyAt_Swap key d _ _ h1 h2 j]
    by_cases hj : j = p + 1
    · simp only [hj, if_true, if_neg (Nat.succ_ne_self p)]
      omega
    · simp only [hj, if_false, if_neg (show j ≠ p by omega)]
      exact h.2 j (by omega) hjb

theorem SortedBut.sortedOn (a b p : Nat) (d : List α) (h : SortedBut key a b p d)
    (hp : p ≤ a ∨ keyAt key d (p - 1) ≤ keyAt key d p) : SortedOn key a b d := by
  intro i j hai hij hjb
  by_cases hi : i = p
  · subst hi; exact h.2 j hij hjb
  · by_cases hj : j = p
    · subst hj
      rcases hp with hp | hp
      · omega
      · by_cases hi' : i = j - 1
        · subst hi'; exact hp
        · exact le_trans (h.1 i (j - 1) hai (by omega) (by omega) hi (by omega)) hp
    · exact h.1 i j hai hij hjb hi hj

theorem insertionSort_inner_spec (hlt : ∀ x y, lt x y = decide (key x < key y)) (a b : Nat) :
    ∀ (p : Nat) (d : List α), a ≤ p → p < b → b ≤ d.length → SortedBut key a b p d →
      Shuffled a b d (insertionSort_inner lt a p d) ∧
        SortedOn key a b (insertionSort_inner lt a p d) := by
  intro p
  induction p with
  | zero =>
    intro d _ _ _ h
    exact ⟨Shuffled.refl _, SortedBut.sortedOn key a b 0 d h (Or.inl (Nat.zero_le _))⟩
  | succ p ih =>
    intro d hap hpb hb h
    unfold insertionSort_inner
    rw [Less_eq key lt hlt d (p + 1) p (by omega) (by omega)]
    by_cases hc : a < p + 1 ∧ keyAt key d (p + 1) < keyAt key d p
    · rw [if_pos (by simpa using hc)]
      have h' := SortedBut.swap_down key a b p d hb (by omega) hpb h hc.2
      have := ih (Swap d (p + 1) p) (by omega) (by omega) (by rw [Swap_length]; exact hb) h'
      exact ⟨Shuffled.swap (p + 1) p (by omega) hpb (by omega) (by omega) this.1, this.2⟩
    · rw [if_neg (by simpa using hc)]
      refine ⟨Shuffled.refl _, SortedBut.sortedOn key a b (p + 1) d h ?_⟩
      by_cases ha : a < p + 1
      · right
        have : ¬ keyAt key d (p + 1) < keyAt key d p := fun hk => hc ⟨ha, hk⟩
        simpa using this
      · left; omega

theorem SortedOn.sortedBut_last (a i : Nat) (d : List α) (h : SortedOn key a i d) :
    SortedBut key a (i + 1) i d :=
  ⟨fun p q hp hpq hq _ hqi => h p q hp hpq (by omega), fun j hj hj' => by omega⟩

theorem insertionSort_outer_spec (hlt : ∀ x y, lt x y = decide (key x < key y)) (a b : Nat) :
    ∀ (n i : Nat) (d : List α), a < i → i + n = b → b ≤ d.length → SortedOn key a i d →
      Shuffled a b d (insertionSort_outer lt a n i d) ∧
        SortedOn key a b (insertionSort_outer lt a n i d) := by
  intro n
  induction n with
  | zero =>
    intro i d _ hi _ h
    have : i = b := by omega
    subst this
    exact ⟨Shuffled.refl _, h⟩
  | succ n ih =>
    intro i d hai hi hb h
    unfold insertionSort_outer
    have hin := insertionSort_inner_spec key lt hlt a (i + 1) i d (by omega) (by omega)
      (by omega) (SortedOn.sortedBut_last key a i d h)
    have := ih (i + 1) (insertionSort_inner lt a i d) (by omega) (by omega)
      (by rw [hin.1.length_eq]; exact hb) hin.2
    exact ⟨(hin.1.mono (le_refl a) (by omega)).trans this.1, this.2⟩

/-- `insertionSort_func` sorts `data[a:b]` by swaps inside the range. -/
theorem insertionSort_func_spec (hlt : ∀ x y, lt x y = decide (key x < key y)) (a b : Nat)
    (d : List α) (hb : b ≤ d.length) :
    Shuffled a b d (insertionSort_func lt d a b) ∧
      SortedOn key a b (insertionSort_func lt d a b) := by
  unfold insertionSort_func
  by_cases h : a + 1 ≤ b
  · exact insertionSort_outer_spec key lt hlt a b (b - (a + 1)) (a + 1) d (by omega) (by omega)
      hb (fun i j hi hij hj => by omega)
  · have : b - (a + 1) = 0 := by omega
    rw [this]
    exact ⟨Shuffled.refl _, fun i j hi hij hj => by omega⟩

end Keyed

end CauRss.GoSort

/-! ## `partition_func` -/

namespace CauRss.GoSort

variable {α : Type}

section Keyed

variable (key : α → Int) (lt : α → α → Bool)

theorem scanLess_spec (hlt : ∀ x y, lt x y = decide (key x < key y)) (d : List α) (a j : Nat)
    (ha : a < d.length) (hj : j < d.length) :
    ∀ (n i : Nat), i + n = j + 1 →
      i ≤ scanLess lt d a j n i ∧ scanLess lt d a j n i ≤ j + 1 ∧
      (∀ k, i ≤ k → k < scanLess lt d a j n i → keyAt key d k < keyAt key d a) ∧
      (scanLess lt d a j n i ≤ j →
        ¬ keyAt key d (scanLess lt d a j n i) < keyAt key d a) := by
  intro n
  induction n with
  | zero =>
    intro i hi
    simp only [scanLess]
    exact ⟨le_refl _, by omega, fun k h1 h2 => by omega, fun h => by omega⟩
  | succ n ih =>
    intro i hi
    unfold scanLess
    rw [Less_eq key lt hlt d i a (by omega) ha]
    by_cases hc : i ≤ j ∧ keyAt key d i < keyAt key d a
    · rw [if_pos (by simpa using hc)]
      obtain ⟨h1, h2, h3, h4⟩ := ih (i + 1) (by omega)
      refine ⟨by omega, h2, fun k hk1 hk2 => ?_, h4⟩
      by_cases hk : k = i
      · subst hk; exact hc.2
      · exact h3 k (by omega) hk2
    · rw [if_neg (by simpa using hc)]
      refine ⟨le_refl _, by omega, fun k h1 h2 => by omega, fun h => ?_⟩
      intro hk
      exact hc ⟨h, hk⟩

theorem scanNotLess_spec (hlt : ∀ x y, lt x y = decide (key x < key y)) (d : List α)
    (a i : Nat) (ha : a < d.length) (hi : 1 ≤ i) :
    ∀ (j : Nat), i ≤ j + 1 → j < d.length →
      scanNotLess lt d a i j ≤ j ∧ i ≤ scanNotLess lt d a i j + 1 ∧
      (∀ k, scanNotLess lt d a i j < k → k ≤ j → ¬ keyAt key d k < keyAt key d a) ∧
      (i ≤ scanNotLess lt d a i j →
        keyAt key d (scanNotLess lt d a i j) < keyAt key d a) := by
  intro j
  induction j with
  | zero =>
    intro hij _
    simp only [scanNotLess]
    exact ⟨le_refl _, by omega, fun k h1 h2 => by omega, fun h => by omega⟩
  | succ j ih =>
    intro hij hj
    unfold scanNotLess
    rw [Less_eq key lt hlt d (j + 1) a hj ha]
    by_cases hc : i ≤ j + 1 ∧ ¬ keyAt key d (j + 1) < keyAt key d a
    · rw [if_pos (by simpa using hc)]
      obtain ⟨h1, h2, h3, h4⟩ := ih (by omega) (by omega)
      refine ⟨by omega, h2, fun k hk1 hk2 => ?_, h4⟩
      by_cases hk : k = j + 1
      · subst hk; exact hc.2
      · exact h3 k hk1 (by omega)
    · rw [if_neg (by simpa using hc)]
      refine ⟨le_refl _, by omega, fun k h1 h2 => by omega, fun h => ?_⟩
      by_contra hk
      exact hc ⟨h, hk⟩

theorem partition_loop_spec (hlt : ∀ x y, lt x y = decide (key x < key y)) (a b : Nat) :
    ∀ (f i j : Nat) (d : List α), a < i → i ≤ j + 1 → j < b → b ≤ d.length → j + 1 ≤ i + f →
      (∀ k, a < k → k < i → keyAt key d k < keyAt key d a) →
      (∀ k, j < k → k < b → ¬ keyAt key d k < keyAt key d a) →
      Shuffled (a + 1) b d (partition_loop lt a f i j d).2 ∧
        a ≤ (partition_loop lt a f i j d).1 ∧ (partition_loop lt a f i j d).1 < b ∧
        (∀ k, a < k → k ≤ (partition_loop lt a f i j d).1 →
          keyAt key (partition_loop lt a f i j d).2 k < keyAt key d a) ∧
        (∀ k, (partition_loop lt a f i j d).1 < k → k < b →
          ¬ keyAt key (partition_loop lt a f i j d).2 k < keyAt key d a) := by
  intro f
  induction f with
  | zero =>
    intro i j d hai hij hjb hb hf hlo hhi
    simp only [partition_loop]
    exact ⟨Shuffled.refl _, by omega, hjb, fun k h1 h2 => hlo k h1 (by omega), hhi⟩
  | succ f ih =>
    intro i j d hai hij hjb hb hf hlo hhi
    unfold partition_loop
    simp only []
    obtain ⟨s1, s2, s3, s4⟩ :=
      scanLess_spec key lt hlt d a j (by omega) (by omega) (j + 1 - i) i (by omega)
    generalize scanLess lt d a j (j + 1 - i) i = i₁ at s1 s2 s3 s4
    obtain ⟨t1, t2, t3, t4⟩ :=
      scanNotLess_spec key lt hlt d a i₁ (by omega) (by omega) j (by omega) (by omega)
    generalize scanNotLess lt d a i₁ j = j₁ at t1 t2 t3 t4
    by_cases hc : i₁ > j₁
    · rw [if_pos hc]
      refine ⟨Shuffled.refl _, by omega, by omega, fun k h1 h2 => ?_, fun k h1 h2 => ?_⟩
      · by_cases hk : k < i
        · exact hlo k h1 hk
        · exact s3 k (by omega) (by omega)
      · by_cases hk : j < k
        · exact hhi k hk h2
        · exact t3 k h1 (by omega)
    · rw [if_neg hc]
      have hle : i₁ ≤ j₁ := by omega
      have hki := s4 (by omega)
      have hkj := t4 hle
      have hne : i₁ ≠ j₁ := by
        intro h; rw [h] at hki; exact hki hkj
      have hi₁ : i₁ < d.length := by omega
      have hj₁ : j₁ < d.length := by omega
      have hka : keyAt key (Swap d i₁ j₁) a = keyAt key d a :=
        keyAt_Swap_other key d i₁ j₁ a (by omega) (by omega)
      have := ih (i₁ + 1) (j₁ - 1) (Swap d i₁ j₁) (by omega) (by omega) (by omega)
        (by rw [Swap_length]; exact hb) (by omega)
        (by
          intro k h1 h2
          rw [hka]
          by_cases hk : k = i₁
          · subst hk; rw [keyAt_Swap_left key d _ _ hi₁ hj₁]; exact hkj
          · rw [keyAt_Swap_other key d i₁ j₁ k hk (by omega)]
            by_cases hk' : k < i
            · exact hlo k h1 hk'
            · exact s3 k (by omega) (by omega))
        (by
          intro k h1 h2
          rw [hka]
          by_cases hk : k = j₁
          · subst hk; rw [keyAt_Swap_right key d _ _ hi₁ hj₁]; exact hki
          · rw [keyAt_Swap_other key d i₁ j₁ k (by omega) hk]
            by_cases hk' : j < k
            · exact hhi k hk' h2
            · exact t3 k (by omega) (by omega))
      rw [hka] at this
      exact ⟨Shuffled.swap i₁ j₁ (by omega) (by omega) (by omega) (by omega) this.1, this.2⟩

/-- `partition_func` is one more turn of its loop, then the swap of the pivot
into place. -/
theorem partition_func_eq (d : List α) (a b pivot : Nat) :
    (partition_func lt d a b pivot).1 =
        Swap (partition_loop lt a (b - a + 1) (a + 1) (b - 1) (Swap d a pivot)).2
          (partition_loop lt a (b - a + 1) (a + 1) (b - 1) (Swap d a pivot)).1 a ∧
      (partition_func lt d a b pivot).2.1 =
        (partition_loop lt a (b - a + 1) (a + 1) (b - 1) (Swap d a pivot)).1 := by
  unfold partition_func
  rw [partition_loop]
  simp only []
  split <;> simp

end Keyed

end CauRss.GoSort

namespace CauRss.GoSort

variable {α : Type}

section Keyed

variable (key : α → Int) (lt : α → α → Bool)

/-- `partition_func` leaves the pivot at the returned index, smaller keys before
it and keys that are not smaller after it. -/
theorem partition_func_spec (hlt : ∀ x y, lt x y = decide (key x < key y)) (d : List α)
    (a b pivot : Nat) (hb : b ≤ d.length) (hpa : a ≤ pivot) (hpb : pivot < b) :
    Shuffled a b d (partition_func lt d a b pivot).1 ∧
      a ≤ (partition_func lt d a b pivot).2.1 ∧ (partition_func lt d a b pivot).2.1 < b ∧
      (∀ k, a ≤ k → k < (partition_func lt d a b pivot).2.1 →
        keyAt key (partition_func lt d a b pivot).1 k <
          keyAt key (partition_func lt d a b pivot).1 (partition_func lt d a b pivot).2.1) ∧
      (∀ k, (partition_func lt d a b pivot).2.1 < k → k < b →
        keyAt key (partition_func lt d a b pivot).1 (partition_func lt d a b pivot).2.1 ≤
          keyAt key (partition_func lt d a b pivot).1 k) := by
  obtain ⟨e1, e2⟩ := partition_func_eq lt d a b pivot
  rw [e1, e2]
  have hlen : b ≤ (Swap d a pivot).length := by rw [Swap_length]; exact hb
  obtain ⟨h1, h2, h3, h4, h5⟩ := partition_loop_spec key lt hlt a b (b - a + 1) (a + 1) (b - 1)
    (Swap d a pivot) (by omega) (by omega) (by omega) hlen (by omega)
    (fun k hk1 hk2 => by omega) (fun k hk1 hk2 => by omega)
  generalize (partition_loop lt a (b - a + 1) (a + 1) (b - 1) (Swap d a pivot)).1 = m
    at h2 h3 h4 h5
  generalize (partition_loop lt a (b - a + 1) (a + 1) (b - 1) (Swap d a pivot)).2 = e
    at h1 h4 h5
  have hle : e.length = d.length := by rw [h1.length_eq, Swap_length]
  have hka : keyAt key e a = keyAt key (Swap d a pivot) a :=
    h1.keyAt_outside key a (by omega)
  have hm : m < e.length := by omega
  have ha : a < e.length := by omega
  refine ⟨?_, h2, h3, ?_, ?_⟩
  · exact Shuffled.swap a pivot (le_refl _) (by omega) hpa hpb
      ((h1.mono (by omega) (le_refl _)).trans (Shuffled.one a b e m a h2 h3 (le_refl _) (by omega)))
  · intro k hk1 hk2
    rw [keyAt_Swap_left key e m a hm ha, hka]
    by_cases hk : k = a
    · subst hk
      rw [keyAt_Swap_right key e m k hm ha]
      exact h4 m (by omega) (le_refl _)
    · rw [keyAt_Swap_other key e m a k (by omega) hk]
      exact h4 k (by omega) (by omega)
  · intro k hk1 hk2
    rw [keyAt_Swap_left key e m a hm ha, hka, keyAt_Swap_other key e m a k (by omega) (by omega)]
    have := h5 k hk1 hk2
    omega

/-! ## `partitionEqual_func` -/

theorem scanNotGreater_spec (hlt : ∀ x y, lt x y = decide (key x < key y)) (d : List α)
    (a j : Nat) (ha : a < d.length) (hj : j < d.length) :
    ∀ (n i : Nat), i + n = j + 1 →
      i ≤ scanNotGreater lt d a j n i ∧ scanNotGreater lt d a j n i ≤ j + 1 ∧
      (∀ k, i ≤ k → k < scanNotGreater lt d a j n i → ¬ keyAt key d a < keyAt key d k) ∧
      (scanNotGreater lt d a j n i ≤ j →
        keyAt key d a < keyAt key d (scanNotGreater lt d a j n i)) := by
  intro n
  induction n with
  | zero =>
    intro i hi
    simp only [scanNotGreater]
    exact ⟨le_refl _, by omega, fun k h1 h2 => by omega, fun h => by omega⟩
  | succ n ih =>
    intro i hi
    unfold scanNotGreater
    rw [Less_eq key lt hlt d a i ha (by omega)]
    by_cases hc : i ≤ j ∧ ¬ keyAt key d a < keyAt key d i
    · rw [if_pos (by simpa using hc)]
      obtain ⟨h1, h2, h3, h4⟩ := ih (i + 1) (by omega)
      refine ⟨by omega, h2, fun k hk1 hk2 => ?_, h4⟩
      by_cases hk : k = i
      · subst hk; exact hc.2
      · exact h3 k (by omega) hk2
    · rw [if_neg (by simpa using hc)]
      refine ⟨le_refl _, by omega, fun k h1 h2 => by omega, fun h => ?_⟩
      by_contra hk
      exact hc ⟨h, hk⟩

theorem scanGreater_spec (hlt : ∀ x y, lt x y = decide (key x < key y)) (d : List α)
    (a i : Nat) (ha : a < d.length) (hi : 1 ≤ i) :
    ∀ (j : Nat), i ≤ j + 1 → j < d.length →
      scanGreater lt d a i j ≤ j ∧ i ≤ scanGreater lt d a i j + 1 ∧
      (∀ k, scanGreater lt d a i j < k → k ≤ j → keyAt key d a < keyAt key d k) ∧
      (i ≤ scanGreater lt d a i j →
        ¬ keyAt key d a < keyAt key d (scanGreater lt d a i j)) := by
  intro j
  induction j with
  | zero =>
    intro hij _
    simp only [scanGreater]
    exact ⟨le_refl _, by omega, fun k h1 h2 => by omega, fun h => by omega⟩
  | succ j ih =>
    intro hij hj
    unfold scanGreater
    rw [Less_eq key lt hlt d a (j + 1) ha hj]
    by_cases hc : i ≤ j + 1 ∧ keyAt key d a < keyAt key d (j + 1)
    · rw [if_pos (by simpa using hc)]
      obtain ⟨h1, h2, h3, h4⟩ := ih (by omega) (by omega)
      refine ⟨by omega, h2, fun k hk1 hk2 => ?_, h4⟩
      by_cases hk : k = j + 1
      · subst hk; exact hc.2
      · exact h3 k hk1 (by omega)
    · rw [if_neg (by simpa using hc)]
      refine ⟨le_refl _, by omega, fun k h1 h2 => by omega, fun h => ?_⟩
      intro hk
      exact hc ⟨h, hk⟩

theorem partitionEqual_loop_spec (hlt : ∀ x y, lt x y = decide (key x < key y)) (a b : Nat) :
    ∀ (f i j : Nat) (d : List α), a < i → i ≤ j + 1 → j < b → b ≤ d.length → j + 1 ≤ i + f →
      (∀ k, a < k → k < i → ¬ keyAt key d a < keyAt key d k) →
      (∀ k, j < k → k < b → keyAt key d a < keyAt key d k) →
      Shuffled (a + 1) b d (partitionEqual_loop lt a f i j d).2 ∧
        a < (partitionEqual_loop lt a f i j d).1 ∧ (partitionEqual_loop lt a f i j d).1 ≤ b ∧
        (∀ k, a < k → k < (partitionEqual_loop lt a f i j d).1 →
          ¬ keyAt key d a < keyAt key (partitionEqual_loop lt a f i j d).2 k) ∧
        (∀ k, (partitionEqual_loop lt a f i j d).1 ≤ k → k < b →
          keyAt key d a < keyAt key (partitionEqual_loop lt a f i j d).2 k) := by
  intro f
  induction f with
  | zero =>
    intro i j d hai hij hjb hb hf hlo hhi
    simp only [partitionEqual_loop]
    exact ⟨Shuffled.refl _, hai, by omega, hlo, fun k h1 h2 => hhi k (by omega) h2⟩
  | succ f ih =>
    intro i j d hai hij hjb hb hf hlo hhi
    unfold partitionEqual_loop
    simp only []
    obtain ⟨s1, s2, s3, s4⟩ :=
      scanNotGreater_spec key lt hlt d a j (by omega) (by omega) (j + 1 - i) i (by omega)
    generalize scanNotGreater lt d a j (j + 1 - i) i = i₁ at s1 s2 s3 s4
    obtain ⟨t1, t2, t3, t4⟩ :=
      scanGreater_spec key lt hlt d a i₁ (by omega) (by omega) j (by omega) (by omega)
    generalize scanGreater lt d a i₁ j = j₁ at t1 t2 t3 t4
    by_cases hc : i₁ > j₁
    · rw [if_pos hc]
      refine ⟨Shuffled.refl _, by omega, by omega, fun k h1 h2 => ?_, fun k h1 h2 => ?_⟩
      · by_cases hk : k < i
        · exact hlo k h1 hk
        · exact s3 k (by omega) (by omega)
      · by_cases hk : j < k
        · exact hhi k hk h2
        · exact t3 k (by omega) (by omega)
    · rw [if_neg hc]
      have hle : i₁ ≤ j₁ := by omega
      have hki := s4 (by omega)
      have hkj := t4 hle
      have hne : i₁ ≠ j₁ := by
        intro h; rw [h] at hki; exact hkj hki
      have hi₁ : i₁ < d.length := by omega
      have hj₁ : j₁ < d.length := by omega
      have hka : keyAt key (Swap d i₁ j₁) a = keyAt key d a :=
        keyAt_Swap_other key d i₁ j₁ a (by omega) (by omega)
      have := ih (i₁ + 1) (j₁ - 1) (Swap d i₁ j₁) (by omega) (by omega) (by omega)
        (by rw [Swap_length]; exact hb) (by omega)
        (by
          intro k h1 h2
          rw [hka]
          by_cases hk : k = i₁
          · subst hk; rw [keyAt_Swap_left key d _ _ hi₁ hj₁]; exact hkj
          · rw [keyAt_Swap_other key d i₁ j₁ k hk (by omega)]
            by_cases hk' : k < i
            · exact hlo k h1 hk'
            · exact s3 k (by omega) (by omega))
        (by
          intro k h1 h2
          rw [hka]
          by_cases hk : k = j₁
          · subst hk; rw [keyAt_Swap_right key d _ _ hi₁ hj₁]; exact hki
          · rw [keyAt_Swap_other key d i₁ j₁ k (by omega) hk]
            by_cases hk' : j < k
            · exact hhi k hk' h2
            · exact t3 k (by omega) (by omega))
      rw [hka] at this
      exact ⟨Shuffled.swap i₁ j₁ (by omega) (by omega) (by omega) (by omega) this.1, this.2⟩

/-- `partitionEqual_func` puts the keys that are not greater than the pivot
before the returned index and the greater keys from it on. -/
theorem partitionEqual_func_spec (hlt : ∀ x y, lt x y = decide (key x < key y)) (d : List α)
    (a b pivot : Nat) (hb : b ≤ d.length) (hpa : a ≤ pivot) (hpb : pivot < b) :
    Shuffled a b d (partitionEqual_func lt d a b pivot).1 ∧
      a < (partitionEqual_func lt d a b pivot).2 ∧ (partitionEqual_func lt d a b pivot).2 ≤ b ∧
      (∀ k, a ≤ k → k < (partitionEqual_func lt d a b pivot).2 →
        ¬ keyAt key d pivot < keyAt key (partitionEqual_func lt d a b pivot).1 k) ∧
      (∀ k, (partitionEqual_func lt d a b pivot).2 ≤ k → k < b →
        keyAt key d pivot < keyAt key (partitionEqual_func lt d a b pivot).1 k) := by
  have hlen : b ≤ (Swap d a pivot).length := by rw [Swap_length]; exact hb
  obtain ⟨h1, h2, h3, h4, h5⟩ := partitionEqual_loop_spec key lt hlt a b (b - a + 1) (a + 1)
    (b - 1) (Swap d a pivot) (by omega) (by omega) (by omega) hlen (by omega)
    (fun k hk1 hk2 => by omega) (fun k hk1 hk2 => by omega)
  have hp : keyAt key (Swap d a pivot) a = keyAt key d pivot :=
    keyAt_Swap_left key d a pivot (by omega) (by omega)
  rw [hp] at h4 h5
  have e1 : (partitionEqual_func lt d a b pivot).1 =
      (partitionEqual_loop lt a (b - a + 1) (a + 1) (b - 1) (Swap d a pivot)).2 := by
    unfold partitionEqual_func; rfl
  have e2 : (partitionEqual_func lt d a b pivot).2 =
      (partitionEqual_loop lt a (b - a + 1) (a + 1) (b - 1) (Swap d a pivot)).1 := by
    unfold partitionEqual_func; rfl
  rw [e1, e2]
  refine ⟨Shuffled.swap a pivot (le_refl _) (by omega) hpa hpb (h1.mono (by omega) (le_refl _)),
    h2, h3, ?_, h5⟩
  intro k hk1 hk2
  by_cases hk : k = a
  · subst hk
    rw [h1.keyAt_outside key k (by omega), hp]
    exact lt_irrefl _
  · exact h4 k (by omega) hk2

end Keyed

end CauRss.GoSort

/-! ## `choosePivot_func`, `reverseRange_func`, `breakPatterns_func` -/

namespace CauRss.GoSort

variable {α : Type}

theorem median_func_mem (lt : α → α → Bool) (d : List α) (a b c s : Nat) :
    (median_func lt d a b c s).1 = a ∨ (median_func lt d a b c s).1 = b ∨
      (median_func lt d a b c s).1 = c := by
  simp only [median_func, order2_func]
  split_ifs <;> simp

theorem medianAdjacent_func_mem (lt : α → α → Bool) (d : List α) (a s : Nat) :
    (medianAdjacent_func lt d a s).1 = a - 1 ∨ (medianAdjacent_func lt d a s).1 = a ∨
      (medianAdjacent_func lt d a s).1 = a + 1 :=
  median_func_mem lt d (a - 1) a (a + 1) s

/-- For a range of at least eight elements the chosen pivot lies in the range. -/
theorem choosePivot_func_range (lt : α → α → Bool) (d : List α) (a b : Nat) (h : 8 ≤ b - a) :
    a ≤ (choosePivot_func lt d a b).1 ∧ (choosePivot_func lt d a b).1 < b := by
  show a ≤ (choosePivot_median lt d a b).1 ∧ (choosePivot_median lt d a b).1 < b
  unfold choosePivot_median
  simp only []
  rw [if_pos h]
  by_cases h50 : b - a ≥ 50
  · rw [if_pos h50]
    unfold choosePivot_ninther
    simp only []
    have hi := medianAdjacent_func_mem lt d (a + (b - a) / 4 * 1) 0
    generalize medianAdjacent_func lt d (a + (b - a) / 4 * 1) 0 = ri at hi ⊢
    have hj := medianAdjacent_func_mem lt d (a + (b - a) / 4 * 2) ri.2
    generalize medianAdjacent_func lt d (a + (b - a) / 4 * 2) ri.2 = rj at hj ⊢
    have hk := medianAdjacent_func_mem lt d (a + (b - a) / 4 * 3) rj.2
    generalize medianAdjacent_func lt d (a + (b - a) / 4 * 3) rj.2 = rk at hk ⊢
    have hm := median_func_mem lt d ri.1 rj.1 rk.1 rk.2
    generalize (median_func lt d ri.1 rj.1 rk.1 rk.2).1 = m at hm ⊢
    omega
  · rw [if_neg h50]
    have hm := median_func_mem lt d (a + (b - a) / 4 * 1) (a + (b - a) / 4 * 2)
      (a + (b - a) / 4 * 3) 0
    generalize (median_func lt d (a + (b - a) / 4 * 1) (a + (b - a) / 4 * 2)
      (a + (b - a) / 4 * 3) 0).1 = m at hm ⊢
    omega

theorem reverseRange_loop_shuffled (a b : Nat) :
    ∀ (f i j : Nat) (d : List α), a ≤ i → j < b →
      Shuffled a b d (reverseRange_loop f i j d) := by
  intro f
  induction f with
  | zero => intro i j d _ _; exact Shuffled.refl _
  | succ f ih =>
    intro i j d hi hj
    unfold reverseRange_loop
    by_cases h : i < j
    · rw [if_pos h]
      exact Shuffled.swap i j hi (by omega) (by omega) hj (ih _ _ _ (by omega) (by omega))
    · rw [if_neg h]; exact Shuffled.refl _

theorem reverseRange_func_shuffled (d : List α) (a b : Nat) :
    Shuffled a b d (reverseRange_func d a b) := by
  unfold reverseRange_func
  by_cases hb : b = 0
  · subst hb; simp only [Nat.zero_sub, reverseRange_loop]; exact Shuffled.refl _
  · exact reverseRange_loop_shuffled a b _ _ _ d (le_refl _) (by omega)

theorem bitsLenAux_pow_le : ∀ (f n : Nat), 1 ≤ n → n ≤ f → 2 ^ bitsLenAux f n ≤ 2 * n := by
  intro f
  induction f with
  | zero => intro n h1 h2; omega
  | succ f ih =>
    intro n h1 h2
    unfold bitsLenAux
    rw [if_neg (by omega)]
    by_cases hn : n / 2 = 0
    · have : bitsLenAux f (n / 2) = 0 := by
        rw [hn]; cases f <;> simp [bitsLenAux]
      rw [this]; omega
    · have := ih (n / 2) (by omega) (by omega)
      rw [Nat.pow_add]
      omega

theorem nextPowerOfTwo_le (n : Nat) (hn : 1 ≤ n) : nextPowerOfTwo n ≤ 2 * n := by
  unfold nextPowerOfTwo bitsLen
  rw [Nat.one_shiftLeft]
  exact le_trans (Nat.mod_le _ _) (bitsLenAux_pow_le n n hn (le_refl _))

theorem breakPatterns_loop_shuffled (a b idx modulus : Nat) (hl : 8 ≤ b - a)
    (hidx : idx = a + ((b - a) / 4) * 2 - 1) (hm : modulus ≤ 2 * (b - a)) :
    ∀ (n i random : Nat) (d : List α), i + n = 3 →
      Shuffled a b d (breakPatterns_loop a (b - a) idx modulus n i random d) := by
  intro n
  induction n with
  | zero => intro i random d _; exact Shuffled.refl _
  | succ n ih =>
    intro i random d hi
    unfold breakPatterns_loop
    simp only []
    have hand : xorshiftNext random &&& (modulus - 1) ≤ modulus - 1 := Nat.and_le_right
    generalize xorshiftNext random &&& (modulus - 1) = other at hand
    refine Shuffled.swap _ _ ?_ ?_ ?_ ?_ (ih _ _ _ (by omega))
    · omega
    · omega
    · omega
    · split <;> omega

theorem breakPatterns_func_shuffled (d : List α) (a b : Nat) :
    Shuffled a b d (breakPatterns_func d a b) := by
  unfold breakPatterns_func
  simp only []
  by_cases h : b - a ≥ 8
  · rw [if_pos h]
    exact breakPatterns_loop_shuffled a b _ _ h rfl (nextPowerOfTwo_le _ (by omega)) 3 0 _ d rfl
  · rw [if_neg h]; exact Shuffled.refl _

end CauRss.GoSort

/-! ## `partialInsertionSort_func` -/

namespace CauRss.GoSort

variable {α : Type}

section Keyed

variable (key : α → Int) (lt : α → α → Bool)

theorem scanOrdered_spec (hlt : ∀ x y, lt x y = decide (key x < key y)) (d : List α)
    (a b : Nat) (hb : b ≤ d.length) :
    ∀ (n i : Nat), a < i → i + n = b → SortedOn key a i d →
      i ≤ scanOrdered lt d b n i ∧ scanOrdered lt d b n i ≤ b ∧
      SortedOn key a (scanOrdered lt d b n i) d ∧
      (scanOrdered lt d b n i < b →
        keyAt key d (scanOrdered lt d b n i) < keyAt key d (scanOrdered lt d b n i - 1)) := by
  intro n
  induction n with
  | zero =>
    intro i _ hi hs
    simp only [scanOrdered]
    exact ⟨le_refl _, by omega, hs, fun h => by omega⟩
  | succ n ih =>
    intro i hai hi hs
    unfold scanOrdered
    rw [Less_eq key lt hlt d i (i - 1) (by omega) (by omega)]
    by_cases hc : i < b ∧ ¬ keyAt key d i < keyAt key d (i - 1)
    · rw [if_pos (by simpa using hc)]
      have hs' : SortedOn key a (i + 1) d := by
        intro p q hp hpq hq
        by_cases hqi : q = i
        · subst hqi
          have h1 : keyAt key d (q - 1) ≤ keyAt key d q := by have := hc.2; omega
          by_cases hpi : p = q - 1
          · subst hpi; exact h1
          · exact le_trans (hs p (q - 1) hp (by omega) (by omega)) h1
        · exact hs p q hp hpq (by omega)
      obtain ⟨h1, h2, h3, h4⟩ := ih (i + 1) (by omega) (by omega) hs'
      exact ⟨by omega, h2, h3, h4⟩
    · rw [if_neg (by simpa using hc)]
      refine ⟨le_refl _, by omega, hs, fun h => ?_⟩
      by_contra hk
      exact hc ⟨h, hk⟩

/-- With the element below the range no greater than the range's elements, the
leftward shift of `partialInsertionSort_func` stops inside the range: it is the
inner loop of the insertion sort. -/
theorem shiftLeft_eq_inner (hlt : ∀ x y, lt x y = decide (key x < key y)) (a b : Nat) :
    ∀ (p : Nat) (d : List α), a ≤ p → p < b → b ≤ d.length → Floor key a b d →
      shiftLeft lt p d = insertionSort_inner lt a p d := by
  intro p
  induction p with
  | zero => intro d _ _ _ _; rfl
  | succ p ih =>
    intro d hap hpb hb hf
    unfold shiftLeft insertionSort_inner
    rw [Less_eq key lt hlt d (p + 1) p (by omega) (by omega)]
    by_cases ha : a < p + 1
    · by_cases hk : keyAt key d (p + 1) < keyAt key d p
      · rw [if_neg (by simpa using hk), if_pos (by simpa using And.intro ha hk)]
        exact ih _ (by omega) (by omega) (by rw [Swap_length]; exact hb)
          ((Shuffled.one a b d (p + 1) p (by omega) hpb (by omega) (by omega)).floor key hf)
      · rw [if_pos (by simpa using hk), if_neg (by simp; intro _; omega)]
    · have hap' : a = p + 1 := by omega
      have hk : ¬ keyAt key d (p + 1) < keyAt key d p := by
        rcases hf with h0 | hf
        · omega
        · have := hf (p + 1) (by omega) hpb
          rw [hap'] at this
          simp only [Nat.add_sub_cancel] at this
          omega
      rw [if_pos (by simpa using hk), if_neg (by simp; intro h; omega)]

theorem shiftRight_shuffled (i b : Nat) :
    ∀ (n j : Nat) (d : List α), i < j → j + n = b →
      Shuffled i b d (shiftRight lt n j d) := by
  intro n
  induction n with
  | zero => intro j d _ _; exact Shuffled.refl _
  | succ n ih =>
    intro j d hij hj
    unfold shiftRight
    split
    · exact Shuffled.refl _
    · exact Shuffled.swap j (j - 1) (by omega) (by omega) (by omega) (by omega)
        (ih _ _ (by omega) (by omega))

theorem partialInsertionSort_loop_spec (hlt : ∀ x y, lt x y = decide (key x < key y))
    (a b : Nat) :
    ∀ (steps i : Nat) (d : List α), a < i → i ≤ b → b ≤ d.length → Floor key a b d →
      SortedOn key a i d →
      Shuffled a b d (partialInsertionSort_loop lt a b steps i d).1 ∧
        ((partialInsertionSort_loop lt a b steps i d).2 = true →
          SortedOn key a b (partialInsertionSort_loop lt a b steps i d).1) := by
  intro steps
  induction steps with
  | zero =>
    intro i d _ _ _ _ _
    simp only [partialInsertionSort_loop]
    exact ⟨Shuffled.refl _, fun h => by cases h⟩
  | succ steps ih =>
    intro i d hai hib hb hf hs
    unfold partialInsertionSort_loop
    simp only []
    obtain ⟨s1, s2, s3, s4⟩ := scanOrdered_spec key lt hlt d a b hb (b - i) i hai (by omega) hs
    generalize scanOrdered lt d b (b - i) i = i₁ at s1 s2 s3 s4
    by_cases h1 : i₁ = b
    · rw [if_pos h1]
      exact ⟨Shuffled.refl _, fun _ => h1 ▸ s3⟩
    · rw [if_neg h1]
      by_cases h2 : b - a < 50
      · rw [if_pos h2]
        exact ⟨Shuffled.refl _, fun h => by cases h⟩
      · rw [if_neg h2]
        have hi₁ : i₁ < d.length := by omega
        have hw1 : Shuffled a b d (Swap d i₁ (i₁ - 1)) :=
          Shuffled.one a b d i₁ (i₁ - 1) (by omega) (by omega) (by omega) (by omega)
        have hlen1 : (Swap d i₁ (i₁ - 1)).length = d.length := Swap_length _ _ _
        -- the leftward shift
        have hleft : Shuffled a i₁ (Swap d i₁ (i₁ - 1))
              (if i₁ - a ≥ 2 then shiftLeft lt (i₁ - 1) (Swap d i₁ (i₁ - 1))
                else Swap d i₁ (i₁ - 1)) ∧
            SortedOn key a i₁
              (if i₁ - a ≥ 2 then shiftLeft lt (i₁ - 1) (Swap d i₁ (i₁ - 1))
                else Swap d i₁ (i₁ - 1)) := by
          by_cases h3 : i₁ - a ≥ 2
          · rw [if_pos h3]
            rw [shiftLeft_eq_inner key lt hlt a b (i₁ - 1) _ (by omega) (by omega)
              (by omega) (hw1.floor key hf)]
            apply insertionSort_inner_spec key lt hlt a i₁ (i₁ - 1) _ (by omega) (by omega)
              (by omega)
            constructor
            · intro p q hp hpq hq hp' hq'
              rw [keyAt_Swap_other key d _ _ p (by omega) (by omega),
                keyAt_Swap_other key d _ _ q (by omega) (by omega)]
              exact s3 p q hp hpq (by omega)
            · intro j hj1 hj2; omega
          · rw [if_neg h3]
            exact ⟨Shuffled.refl _, fun p q hp hpq hq => by omega⟩
        generalize (if i₁ - a ≥ 2 then shiftLeft lt (i₁ - 1) (Swap d i₁ (i₁ - 1))
          else Swap d i₁ (i₁ - 1)) = d₂ at hleft
        have hright : Shuffled i₁ b d₂
            (if b - i₁ ≥ 2 then shiftRight lt (b - (i₁ + 1)) (i₁ + 1) d₂ else d₂) := by
          by_cases h4 : b - i₁ ≥ 2
          · rw [if_pos h4]
            exact shiftRight_shuffled lt i₁ b _ _ d₂ (by omega) (by omega)
          · rw [if_neg h4]; exact Shuffled.refl _
        generalize (if b - i₁ ≥ 2 then shiftRight lt (b - (i₁ + 1)) (i₁ + 1) d₂ else d₂) = d₃
          at hright
        have hall : Shuffled a b d d₃ :=
          (hw1.trans (hleft.1.mono (le_refl _) (by omega))).trans
            (hright.mono (by omega) (le_refl _))
        have := ih i₁ d₃ (by omega) (by omega) (by rw [hall.length_eq]; exact hb)
          (hall.floor key hf)
          (hright.sortedOn_outside key a i₁ (Or.inl (le_refl _)) hleft.2)
        exact ⟨hall.trans this.1, this.2⟩

/-- `partialInsertionSort_func` only swaps inside the range, and the range is
sorted when it reports `true`. -/
theorem partialInsertionSort_func_spec (hlt : ∀ x y, lt x y = decide (key x < key y))
    (d : List α) (a b : Nat) (hab : a < b) (hb : b ≤ d.length) (hf : Floor key a b d) :
    Shuffled a b d (partialInsertionSort_func lt d a b).1 ∧
      ((partialInsertionSort_func lt d a b).2 = true →
        SortedOn key a b (partialInsertionSort_func lt d a b).1) :=
  partialInsertionSort_loop_spec key lt hlt a b 5 (a + 1) d (by omega) (by omega) hb hf
    (fun p q hp hpq hq => by omega)

end Keyed

end CauRss.GoSort

/-! ## `heapSort_func` -/

namespace CauRss.GoSort

variable {α : Type}

section Keyed

variable (key : α → Int) (lt : α → α → Bool)

theorem siftDown_func_spec (hlt : ∀ x y, lt x y = decide (key x < key y))
    (first lo hi : Nat) :
    ∀ (fuel r : Nat) (d : List α), lo ≤ r → hi ≤ r + fuel → first + hi ≤ d.length →
      HeapExcept key first lo hi r d →
      Shuffled first (first + hi) d (siftDown_func lt hi first fuel r d) ∧
        HeapFrom key first lo hi (siftDown_func lt hi first fuel r d) := by
  intro fuel
  induction fuel with
  | zero =>
    intro r d _ hfuel _ hex
    simp only [siftDown_func]
    refine ⟨Shuffled.refl _, fun c hc1 hc2 hc3 => hex.1 c hc1 hc2 hc3 (by omega)⟩
  | succ fuel ih =>
    intro r d hlo hfuel hlen hex
    unfold siftDown_func
    simp only []
    by_cases h1 : 2 * r + 1 ≥ hi
    · rw [if_pos h1]
      exact ⟨Shuffled.refl _, fun c hc1 hc2 hc3 => hex.1 c hc1 hc2 hc3 (by omega)⟩
    · rw [if_neg h1]
      have e : first + (2 * r + 1) + 1 = first + (2 * r + 2) := rfl
      rw [e]
      -- the greater child
      have hch : ∃ ch, (if (2 * r + 1 + 1 < hi &&
            Less lt d (first + (2 * r + 1)) (first + (2 * r + 2))) = true
            then 2 * r + 1 + 1 else 2 * r + 1) = ch ∧
          (ch = 2 * r + 1 ∨ ch = 2 * r + 2) ∧ ch < hi ∧
          keyAt key d (first + (2 * r + 1)) ≤ keyAt key d (first + ch) ∧
          (2 * r + 2 < hi → keyAt key d (first + (2 * r + 2)) ≤ keyAt key d (first + ch)) := by
        by_cases h2 : 2 * r + 1 + 1 < hi
        · rw [Less_eq key lt hlt d _ _ (by omega) (by omega)]
          by_cases h3 : keyAt key d (first + (2 * r + 1)) < keyAt key d (first + (2 * r + 2))
          · exact ⟨2 * r + 2, by simp [h2, h3], Or.inr rfl, by omega, le_of_lt h3,
              fun _ => le_refl _⟩
          · exact ⟨2 * r + 1, by simp [h3], Or.inl rfl, by omega, le_refl _,
              fun _ => by omega⟩
        · exact ⟨2 * r + 1, by simp [h2], Or.inl rfl, by omega, le_refl _, fun h => by omega⟩
      obtain ⟨ch, hcheq, hchc, hchhi, hk1, hk2⟩ := hch
      rw [hcheq]
      rw [Less_eq key lt hlt d _ _ (by omega) (by omega)]
      by_cases h4 : keyAt key d (first + r) < keyAt key d (first + ch)
      · rw [if_neg (by simpa using h4)]
        have hr : first + r < d.length := by omega
        have hc : first + ch < d.length := by omega
        have hex' : HeapExcept key first lo hi ch (Swap d (first + r) (first + ch)) := by
          constructor
          · intro c hc1 hc2 hc3 hc4
            by_cases hpr : (c - 1) / 2 = r
            · rw [hpr, keyAt_Swap_left key d _ _ hr hc]
              by_cases hcc : c = ch
              · subst hcc
                rw [keyAt_Swap_right key d _ _ hr hc]
                exact le_of_lt h4
              · rw [keyAt_Swap_other key d _ _ _ (by omega) (by omega)]
                have : c = 2 * r + 1 ∨ c = 2 * r + 2 := by omega
                rcases this with rfl | rfl
                · exact hk1
                · exact hk2 hc2
            · rw [keyAt_Swap_other key d _ _ (first + (c - 1) / 2) (by omega) (by omega)]
              by_cases hcr : c = r
              · subst hcr
                rw [keyAt_Swap_left key d _ _ hr hc]
                exact hex.2 hc1 hc3 ch (by omega) hchhi (by omega)
              · rw [keyAt_Swap_other key d _ _ (first + c) (by omega) (by omega)]
                exact hex.1 c hc1 hc2 hc3 hpr
          · intro _ _ c hc1 hc2 hc3
            have hpar : (ch - 1) / 2 = r := by omega
            rw [hpar, keyAt_Swap_left key d _ _ hr hc,
              keyAt_Swap_other key d _ _ (first + c) (by omega) (by omega)]
            have := hex.1 c hc1 hc2 (by omega) (by omega)
            rw [hc3] at this
            exact this
        have := ih ch (Swap d (first + r) (first + ch)) (by omega) (by omega)
          (by rw [Swap_length]; exact hlen) hex'
        exact ⟨Shuffled.swap _ _ (by omega) (by omega) (by omega) (by omega) this.1, this.2⟩
      · rw [if_pos (by simpa using h4)]
        refine ⟨Shuffled.refl _, fun c hc1 hc2 hc3 => ?_⟩
        by_cases hpr : (c - 1) / 2 = r
        · rw [hpr]
          have : c = 2 * r + 1 ∨ c = 2 * r + 2 := by omega
          rcases this with rfl | rfl
          · omega
          · have := hk2 hc2; omega
        · exact hex.1 c hc1 hc2 hc3 hpr

theorem heapSort_build_spec (hlt : ∀ x y, lt x y = decide (key x < key y)) (first hi : Nat) :
    ∀ (n : Nat) (d : List α), first + hi ≤ d.length → HeapFrom key first n hi d →
      Shuffled first (first + hi) d (heapSort_build lt hi first n d) ∧
        HeapFrom key first 0 hi (heapSort_build lt hi first n d) := by
  intro n
  induction n with
  | zero => intro d _ h; exact ⟨Shuffled.refl _, h⟩
  | succ n ih =>
    intro d hlen h
    unfold heapSort_build
    have hs := siftDown_func_spec key lt hlt first n hi hi n d (le_refl _) (by omega) hlen
      ⟨fun c hc1 hc2 hc3 hc4 => h c hc1 hc2 (by omega), fun h1 h2 => by omega⟩
    have := ih _ (by rw [hs.1.length_eq]; exact hlen) hs.2
    exact ⟨hs.1.trans this.1, this.2⟩

theorem HeapFrom.le_root (first hi : Nat) (d : List α) (h : HeapFrom key first 0 hi d) :
    ∀ c, c < hi → keyAt key d (first + c) ≤ keyAt key d (first + 0) := by
  intro c
  induction c using Nat.strong_induction_on with
  | _ c ih =>
    intro hc
    by_cases h0 : c = 0
    · subst h0; exact le_refl _
    · exact le_trans (h c (by omega) hc (Nat.zero_le _)) (ih ((c - 1) / 2) (by omega) (by omega))

theorem heapSort_pop_spec (hlt : ∀ x y, lt x y = decide (key x < key y)) (first hi : Nat) :
    ∀ (n : Nat) (d : List α), n ≤ hi → first + hi ≤ d.length → HeapFrom key first 0 n d →
      SortedOn key (first + n) (first + hi) d →
      (∀ c j, c < n → n ≤ j → j < hi → keyAt key d (first + c) ≤ keyAt key d (first + j)) →
      Shuffled first (first + hi) d (heapSort_pop lt first n d) ∧
        SortedOn key first (first + hi) (heapSort_pop lt first n d) := by
  intro n
  induction n with
  | zero =>
    intro d _ _ _ hs _
    exact ⟨Shuffled.refl _, hs⟩
  | succ n ih =>
    intro d hn hlen hheap hs hle
    unfold heapSort_pop
    have h0 : first < d.length := by omega
    have hn' : first + n < d.length := by omega
    have hroot := HeapFrom.le_root key first (n + 1) d hheap
    have hw : Shuffled first (first + hi) d (Swap d first (first + n)) :=
      Shuffled.one _ _ d _ _ (le_refl _) (by omega) (by omega) (by omega)
    -- the heap below the moved maximum, a hole at its root
    have hex : HeapExcept key first 0 n 0 (Swap d first (first + n)) := by
      refine ⟨fun c hc1 hc2 _ hc4 => ?_, fun h => by omega⟩
      rw [keyAt_Swap_other key d _ _ (first + c) (by omega) (by omega),
        keyAt_Swap_other key d _ _ (first + (c - 1) / 2) (by omega) (by omega)]
      exact hheap c hc1 (by omega) (Nat.zero_le _)
    have hsift := siftDown_func_spec key lt hlt first 0 n n 0 (Swap d first (first + n))
      (le_refl _) (by omega) (by rw [Swap_length]; omega) hex
    generalize siftDown_func lt n first n 0 (Swap d first (first + n)) = e at hsift
    have hout : ∀ k, first + n ≤ k → keyAt key e k = keyAt key (Swap d first (first + n)) k :=
      fun k hk => hsift.1.keyAt_outside key k (Or.inr hk)
    have hkn : keyAt key e (first + n) = keyAt key d first := by
      rw [hout _ (le_refl _), keyAt_Swap_right key d _ _ h0 hn']
    have hkj : ∀ j, n < j → j < hi → keyAt key e (first + j) = keyAt key d (first + j) := by
      intro j hj1 hj2
      rw [hout _ (by omega), keyAt_Swap_other key d _ _ _ (by omega) (by omega)]
    -- every key of the remaining heap is at most the moved maximum
    have hbelow : ∀ k, first ≤ k → k < first + n → keyAt key e k ≤ keyAt key d first := by
      apply hsift.1.forall_range key (fun v => v ≤ keyAt key d first)
      intro k hk1 hk2
      by_cases hkf : k = first
      · subst hkf
        rw [keyAt_Swap_left key d _ _ h0 hn']
        have := hroot n (by omega)
        simpa using this
      · rw [keyAt_Swap_other key d _ _ k hkf (by omega)]
        have := hroot (k - first) (by omega)
        rw [show first + (k - first) = k by omega] at this
        simpa using this
    have hall := hw.trans (hsift.1.mono (le_refl _) (by omega))
    have := ih e (by omega) (by rw [hall.length_eq]; exact hlen) hsift.2
      (by
        intro i j hi1 hij hj
        by_cases hin : i = first + n
        · subst hin
          rw [hkn, show j = first + (j - first) by omega, hkj _ (by omega) (by omega)]
          have := hle 0 (j - first) (by omega) (by omega) (by omega)
          simpa using this
        · rw [show i = first + (i - first) by omega, show j = first + (j - first) by omega,
            hkj _ (by omega) (by omega), hkj _ (by omega) (by omega)]
          have := hs (first + (i - first)) (first + (j - first)) (by omega) (by omega) (by omega)
          exact this)
      (by
        intro c j hc hj1 hj2
        have h1 := hbelow (first + c) (by omega) (by omega)
        by_cases hjn : j = n
        · subst hjn; rw [hkn]; exact h1
        · rw [hkj j (by omega) hj2]
          have := hle 0 j (by omega) (by omega) hj2
          exact le_trans h1 (by simpa using this))
    exact ⟨hall.trans this.1, this.2⟩

/-- `heapSort_func` sorts `data[a:b]` by swaps inside the range. -/
theorem heapSort_func_spec (hlt : ∀ x y, lt x y = decide (key x < key y)) (d : List α)
    (a b : Nat) (hab : a ≤ b) (hb : b ≤ d.length) :
    Shuffled a b d (heapSort_func lt d a b) ∧ SortedOn key a b (heapSort_func lt d a b) := by
  unfold heapSort_func
  simp only []
  have hbuild := heapSort_build_spec key lt hlt a (b - a) ((b - a - 1) / 2 + 1) d (by omega)
    (fun c hc1 hc2 hc3 => by omega)
  generalize heapSort_build lt (b - a) a ((b - a - 1) / 2 + 1) d = e at hbuild
  have hpop := heapSort_pop_spec key lt hlt a (b - a) (b - a) e (le_refl _)
    (by rw [hbuild.1.length_eq]; omega) hbuild.2 (fun i j hi hij hj => by omega)
    (fun c j hc hj1 hj2 => by omega)
  have e1 : a + (b - a) = b := by omega
  rw [e1] at hbuild hpop
  exact ⟨hbuild.1.trans hpop.1, hpop.2⟩

end Keyed

end CauRss.GoSort

/-! ## `pdqsort_func` and `sort.Slice` -/

namespace CauRss.GoSort

variable {α : Type}

section Keyed

variable (key : α → Int) (lt : α → α → Bool)

theorem Floor.restrict {a b c : Nat} {d : List α} (h : Floor key a b d) (hc : c ≤ b) :
    Floor key a c d := by
  rcases h with h | h
  · exact Or.inl h
  · exact Or.inr fun k hk1 hk2 => h k hk1 (by omega)

theorem Floor.of_shuffled_above {a b p q : Nat} {d e : List α} (h : Floor key a b d)
    (hs : Shuffled p q d e) (hp : b ≤ p) : Floor key a b e := by
  rcases h with h | h
  · exact Or.inl h
  · refine Or.inr fun k hk1 hk2 => ?_
    rw [hs.keyAt_outside key (a - 1) (by omega), hs.keyAt_outside key k (by omega)]
    exact h k hk1 hk2

theorem Floor.of_pivot (m b : Nat) (d : List α)
    (h : ∀ k, m < k → k < b → keyAt key d m ≤ keyAt key d k) : Floor key (m + 1) b d :=
  Or.inr fun k hk1 hk2 => by
    rw [Nat.add_sub_cancel]
    exact h k (by omega) hk2

theorem SortedOn.join (a m b : Nat) (d : List α) (h₁ : SortedOn key a m d)
    (h₂ : SortedOn key (m + 1) b d)
    (hlo : ∀ k, a ≤ k → k < m → keyAt key d k ≤ keyAt key d m)
    (hhi : ∀ k, m < k → k < b → keyAt key d m ≤ keyAt key d k) : SortedOn key a b d := by
  intro i j hi hij hj
  by_cases h1 : j < m
  · exact h₁ i j hi hij h1
  · by_cases h2 : j = m
    · subst h2; exact hlo i hi hij
    · by_cases h3 : i < m
      · exact le_trans (hlo i hi h3) (hhi j (by omega) hj)
      · by_cases h4 : i = m
        · subst h4; exact hhi j (by omega) hj
        · exact h₂ i j (by omega) hij hj

/-- The preparation of a turn only swaps inside the range, picks a pivot in the
range, and has sorted the range when it says so. -/
theorem pdqsort_prepare_spec (hlt : ∀ x y, lt x y = decide (key x < key y)) (d : List α)
    (a b limit : Nat) (wb wp : Bool) (h8 : 8 ≤ b - a) (hb : b ≤ d.length)
    (hf : Floor key a b d) :
    Shuffled a b d (pdqsort_prepare lt d a b limit wb wp).1 ∧
      a ≤ (pdqsort_prepare lt d a b limit wb wp).2.2.1 ∧
      (pdqsort_prepare lt d a b limit wb wp).2.2.1 < b ∧
      ((pdqsort_prepare lt d a b limit wb wp).2.2.2 = true →
        SortedOn key a b (pdqsort_prepare lt d a b limit wb wp).1) := by
  unfold pdqsort_prepare
  simp only []
  have h1 : Shuffled a b d (if (!wb) = true then breakPatterns_func d a b else d) := by
    cases wb
    · exact breakPatterns_func_shuffled d a b
    · exact Shuffled.refl _
  generalize (if (!wb) = true then breakPatterns_func d a b else d) = d₁ at h1 ⊢
  have hc := choosePivot_func_range lt d₁ a b h8
  generalize choosePivot_func lt d₁ a b = chosen at hc ⊢
  have h2 : Shuffled a b d₁
      (if decide (chosen.2 = sortedHint.decreasingHint) = true then reverseRange_func d₁ a b
        else d₁) := by
    split
    · exact reverseRange_func_shuffled d₁ a b
    · exact Shuffled.refl _
  generalize (if decide (chosen.2 = sortedHint.decreasingHint) = true
    then reverseRange_func d₁ a b else d₁) = d₂ at h2 ⊢
  have hp : a ≤ (if decide (chosen.2 = sortedHint.decreasingHint) = true
        then b - 1 - (chosen.1 - a) else chosen.1) ∧
      (if decide (chosen.2 = sortedHint.decreasingHint) = true
        then b - 1 - (chosen.1 - a) else chosen.1) < b := by
    split <;> omega
  generalize (if decide (chosen.2 = sortedHint.decreasingHint) = true
    then b - 1 - (chosen.1 - a) else chosen.1) = pivot at hp ⊢
  have h12 : Shuffled a b d d₂ := h1.trans h2
  generalize (if decide (chosen.2 = sortedHint.decreasingHint) = true
    then sortedHint.increasingHint else chosen.2) = hint
  by_cases hcond : (wb && wp && decide (hint = sortedHint.increasingHint)) = true
  · rw [if_pos hcond]
    have := partialInsertionSort_func_spec key lt hlt d₂ a b (by omega)
      (by rw [h12.length_eq]; exact hb) (h12.floor key hf)
    exact ⟨h12.trans this.1, hp.1, hp.2, this.2⟩
  · rw [if_neg hcond]
    exact ⟨h12, hp.1, hp.2, fun h => by cases h⟩

/-- `pdqsort_func` sorts `data[a:b]` by swaps inside the range, given as many
units as the range is long. -/
theorem pdqsort_func_spec (hlt : ∀ x y, lt x y = decide (key x < key y)) :
    ∀ (fuel : Nat) (d : List α) (a b limit : Nat) (wb wp : Bool), a ≤ b → b ≤ d.length →
      b - a ≤ fuel → Floor key a b d →
      Shuffled a b d (pdqsort_func lt fuel d a b limit wb wp) ∧
        SortedOn key a b (pdqsort_func lt fuel d a b limit wb wp) := by
  intro fuel
  induction fuel with
  | zero =>
    intro d a b limit wb wp hab hb hfuel _
    simp only [pdqsort_func]
    exact ⟨Shuffled.refl _, fun i j hi hij hj => by omega⟩
  | succ fuel ih =>
    intro d a b limit wb wp hab hb hfuel hf
    unfold pdqsort_func
    simp only []
    by_cases h12 : b - a ≤ 12
    · rw [if_pos h12]
      exact insertionSort_func_spec key lt hlt a b d hb
    rw [if_neg h12]
    by_cases hl : limit = 0
    · rw [if_pos hl]
      exact heapSort_func_spec key lt hlt d a b hab hb
    rw [if_neg hl]
    obtain ⟨p1, p2, p3, p4⟩ :=
      pdqsort_prepare_spec key lt hlt d a b limit wb wp (by omega) hb hf
    generalize pdqsort_prepare lt d a b limit wb wp = prepared at p1 p2 p3 p4 ⊢
    obtain ⟨d₁, limit₁, pivot, done⟩ := prepared
    simp only [] at p1 p2 p3 p4 ⊢
    by_cases hdone : done = true
    · rw [if_pos hdone]
      exact ⟨p1, p4 hdone⟩
    rw [if_neg hdone]
    have hlen1 : b ≤ d₁.length := by rw [p1.length_eq]; exact hb
    have hf1 : Floor key a b d₁ := p1.floor key hf
    by_cases hpe : (decide (a > 0) && !Less lt d₁ (a - 1) pivot) = true
    · -- the pivot equals the element before the range
      rw [if_pos hpe]
      simp only [Bool.and_eq_true, decide_eq_true_eq, Bool.not_eq_true'] at hpe
      obtain ⟨ha0, hless⟩ := hpe
      rw [Less_eq key lt hlt d₁ (a - 1) pivot (by omega) (by omega)] at hless
      have hpiv : keyAt key d₁ pivot ≤ keyAt key d₁ (a - 1) := by simpa using hless
      obtain ⟨e1, e2, e3, e4, e5⟩ :=
        partitionEqual_func_spec key lt hlt d₁ a b pivot hlen1 p2 p3
      generalize partitionEqual_func lt d₁ a b pivot = equal at e1 e2 e3 e4 e5 ⊢
      obtain ⟨e, mid⟩ := equal
      simp only [] at e1 e2 e3 e4 e5 ⊢
      have hfe : Floor key a b e := e1.floor key hf1
      have hlow : ∀ k, a ≤ k → k < b → keyAt key d₁ pivot ≤ keyAt key e k := by
        intro k hk1 hk2
        rcases hfe with h0 | hfe
        · omega
        · have := hfe k hk1 hk2
          rw [e1.keyAt_outside key (a - 1) (by omega)] at this
          omega
      have heq : ∀ k, a ≤ k → k < mid → keyAt key e k = keyAt key d₁ pivot := by
        intro k hk1 hk2
        have h1 := hlow k hk1 (by omega)
        have h2 := e4 k hk1 hk2
        omega
      have hlene : b ≤ e.length := by rw [e1.length_eq]; exact hlen1
      have hfm : Floor key mid b e := by
        refine Or.inr fun k hk1 hk2 => ?_
        rw [heq (mid - 1) (by omega) (by omega)]
        exact le_of_lt (e5 k hk1 hk2)
      obtain ⟨r1, r2⟩ := ih e mid b limit₁ wb wp e3 hlene (by omega) hfm
      generalize pdqsort_func lt fuel e mid b limit₁ wb wp = r at r1 r2 ⊢
      refine ⟨(p1.trans e1).trans (r1.mono (by omega) (le_refl _)), ?_⟩
      have hgt := r1.forall_range key (fun v => keyAt key d₁ pivot < v) e5
      intro i j hi hij hj
      by_cases h1 : mid ≤ i
      · exact r2 i j h1 hij hj
      · rw [r1.keyAt_outside key i (by omega), heq i hi (by omega)]
        by_cases h2 : mid ≤ j
        · exact le_of_lt (hgt j h2 hj)
        · rw [r1.keyAt_outside key j (by omega), heq j (by omega) (by omega)]
    · rw [if_neg hpe]
      obtain ⟨q1, q2, q3, q4, q5⟩ := partition_func_spec key lt hlt d₁ a b pivot hlen1 p2 p3
      generalize partition_func lt d₁ a b pivot = parted at q1 q2 q3 q4 q5 ⊢
      obtain ⟨e, mid, already⟩ := parted
      simp only [] at q1 q2 q3 q4 q5 ⊢
      have hlene : b ≤ e.length := by rw [q1.length_eq]; exact hlen1
      have hfe : Floor key a b e := q1.floor key hf1
      by_cases hlr : mid - a < b - mid
      · rw [if_pos hlr]
        obtain ⟨l1, l2⟩ := ih e a mid limit₁ true true q2 (by omega) (by omega)
          (hfe.restrict key (by omega))
        generalize pdqsort_func lt fuel e a mid limit₁ true true = e₁ at l1 l2 ⊢
        have hm1 : keyAt key e₁ mid = keyAt key e mid := l1.keyAt_outside key mid (by omega)
        have hhi1 : ∀ k, mid < k → k < b → keyAt key e₁ mid ≤ keyAt key e₁ k := by
          intro k hk1 hk2
          rw [hm1, l1.keyAt_outside key k (by omega)]
          exact q5 k hk1 hk2
        obtain ⟨r1, r2⟩ := ih e₁ (mid + 1) b limit₁
          (decide (mid - a ≥ (b - a) / 8)) already (by omega)
          (by rw [l1.length_eq]; exact hlene) (by omega) (Floor.of_pivot key mid b e₁ hhi1)
        generalize pdqsort_func lt fuel e₁ (mid + 1) b limit₁
          (decide (mid - a ≥ (b - a) / 8)) already = e₂ at r1 r2 ⊢
        have hm2 : keyAt key e₂ mid = keyAt key e mid := by
          rw [r1.keyAt_outside key mid (by omega), hm1]
        refine ⟨((p1.trans q1).trans (l1.mono (le_refl _) (by omega))).trans
          (r1.mono (by omega) (le_refl _)), ?_⟩
        apply SortedOn.join key a mid b e₂
          (r1.sortedOn_outside key a mid (Or.inl (by omega)) l2) r2
        · intro k hk1 hk2
          rw [hm2, r1.keyAt_outside key k (by omega)]
          exact le_of_lt
            (l1.forall_range key (fun v => v < keyAt key e mid) q4 k hk1 hk2)
        · intro k hk1 hk2
          rw [hm2, ← hm1]
          exact r1.forall_range key (fun v => keyAt key e₁ mid ≤ v)
            (fun k hk1 hk2 => hhi1 k (by omega) hk2) k (by omega) hk2
      · rw [if_neg hlr]
        obtain ⟨r1, r2⟩ := ih e (mid + 1) b limit₁ true true (by omega) hlene (by omega)
          (Floor.of_pivot key mid b e q5)
        generalize pdqsort_func lt fuel e (mid + 1) b limit₁ true true = e₁ at r1 r2 ⊢
        have hm1 : keyAt key e₁ mid = keyAt key e mid := r1.keyAt_outside key mid (by omega)
        obtain ⟨l1, l2⟩ := ih e₁ a mid limit₁
          (decide (b - mid ≥ (b - a) / 8)) already q2
          (by rw [r1.length_eq]; omega) (by omega)
          ((hfe.restrict key (by omega)).of_shuffled_above key r1 (by omega))
        generalize pdqsort_func lt fuel e₁ a mid limit₁
          (decide (b - mid ≥ (b - a) / 8)) already = e₂ at l1 l2 ⊢
        have hm2 : keyAt key e₂ mid = keyAt key e mid := by
          rw [l1.keyAt_outside key mid (by omega), hm1]
        refine ⟨((p1.trans q1).trans (r1.mono (by omega) (le_refl _))).trans
          (l1.mono (le_refl _) (by omega)), ?_⟩
        apply SortedOn.join key a mid b e₂ l2
          (l1.sortedOn_outside key (mid + 1) b (Or.inr (by omega)) r2)
        · intro k hk1 hk2
          rw [hm2]
          refine le_of_lt (l1.forall_range key (fun v => v < keyAt key e mid) ?_ k hk1 hk2)
          intro k hk1 hk2
          rw [r1.keyAt_outside key k (by omega)]
          exact q4 k hk1 hk2
        · intro k hk1 hk2
          rw [hm2, l1.keyAt_outside key k (by omega)]
          exact r1.forall_range key (fun v => keyAt key e mid ≤ v)
            (fun k hk1 hk2 => q5 k (by omega) hk2) k (by omega) hk2

end Keyed

end CauRss.GoSort

namespace CauRss.GoSort

variable {α : Type}

section Keyed

variable (key : α → Int) (lt : α → α → Bool)

theorem keyAt_of_lt (d : List α) (i : Nat) (h : i < d.length) : keyAt key d i = key d[i] := by
  unfold keyAt
  rw [List.getElem?_eq_getElem h]

/-- `sort.Slice` returns a permutation of its argument in non-decreasing order
of the keys, for a comparison that is the strict order of the keys. -/
theorem Slice_spec (hlt : ∀ x y, lt x y = decide (key x < key y)) (x : List α) :
    (Slice lt x).Perm x ∧ (Slice lt x).Pairwise (fun p q => key p ≤ key q) := by
  unfold Slice
  simp only []
  obtain ⟨h1, h2⟩ := pdqsort_func_spec key lt hlt (x.length + 1) x 0 x.length
    (bitsLen x.length) true true (Nat.zero_le _) (le_refl _) (by omega) (Or.inl rfl)
  refine ⟨h1.perm, ?_⟩
  rw [List.pairwise_iff_getElem]
  intro i j hi hj hij
  have hlen := h1.length_eq
  have := h2 i j (Nat.zero_le _) hij (by omega)
  rwa [keyAt_of_lt key _ i hi, keyAt_of_lt key _ j hj] at this

/-! ### Stability of the insertion sort -/

theorem Swap_cons_succ (z : α) (d : List α) (i j : Nat) :
    Swap (z :: d) (i + 1) (j + 1) = z :: Swap d i j := by
  unfold Swap
  simp only [List.getElem?_cons_succ]
  split <;> simp

theorem keyAt_cons_succ (z : α) (d : List α) (i : Nat) :
    keyAt key (z :: d) (i + 1) = keyAt key d i := by
  unfold keyAt
  simp only [List.getElem?_cons_succ]

/-- Swapping two neighbours with different keys changes, for no key value, the
sequence of the elements with that key. -/
theorem Swap_adjacent_filter :
    ∀ (p : Nat) (d : List α), p + 1 < d.length → keyAt key d (p + 1) ≠ keyAt key d p →
      ∀ c : Int, (Swap d (p + 1) p).filter (fun x => decide (key x = c)) =
        d.filter (fun x => decide (key x = c)) := by
  intro p
  induction p with
  | zero =>
    intro d hlen hne c
    match d, hlen with
    | x :: y :: l, _ =>
      have hxy : key y ≠ key x := by simpa [keyAt] using hne
      have hsw : Swap (x :: y :: l) (0 + 1) 0 = y :: x :: l := by simp [Swap]
      rw [hsw]
      by_cases hx : key x = c
      · have hy : key y ≠ c := fun h => hxy (h.trans hx.symm)
        simp [List.filter_cons, hx, hy]
      · simp [List.filter_cons, hx]
  | succ p ih =>
    intro d hlen hne c
    match d, hlen with
    | z :: d, hlen =>
      rw [Swap_cons_succ]
      rw [keyAt_cons_succ, keyAt_cons_succ] at hne
      simp only [List.filter_cons]
      rw [ih d (by simpa using hlen) hne c]

theorem insertionSort_inner_stable (hlt : ∀ x y, lt x y = decide (key x < key y)) (a : Nat) :
    ∀ (p : Nat) (d : List α), p < d.length → ∀ c : Int,
      (insertionSort_inner lt a p d).filter (fun x => decide (key x = c)) =
        d.filter (fun x => decide (key x = c)) := by
  intro p
  induction p with
  | zero => intro d _ c; rfl
  | succ p ih =>
    intro d hp c
    unfold insertionSort_inner
    split
    · rename_i hc
      simp only [Bool.and_eq_true, decide_eq_true_eq] at hc
      have hless := hc.2
      rw [Less_eq key lt hlt d (p + 1) p hp (by omega)] at hless
      have hk : keyAt key d (p + 1) < keyAt key d p := by simpa using hless
      rw [ih _ (by rw [Swap_length]; omega) c]
      exact Swap_adjacent_filter key p d hp (ne_of_lt hk) c
    · rfl

theorem insertionSort_inner_length (a : Nat) :
    ∀ (p : Nat) (d : List α), (insertionSort_inner lt a p d).length = d.length := by
  intro p
  induction p with
  | zero => intro d; rfl
  | succ p ih =>
    intro d
    unfold insertionSort_inner
    split
    · rw [ih, Swap_length]
    · rfl

theorem insertionSort_outer_stable (hlt : ∀ x y, lt x y = decide (key x < key y)) (a : Nat) :
    ∀ (n i : Nat) (d : List α), i + n ≤ d.length → ∀ c : Int,
      (insertionSort_outer lt a n i d).filter (fun x => decide (key x = c)) =
        d.filter (fun x => decide (key x = c)) := by
  intro n
  induction n with
  | zero => intro i d _ c; rfl
  | succ n ih =>
    intro i d hi c
    unfold insertionSort_outer
    rw [ih (i + 1) _ (by rw [insertionSort_inner_length]; omega) c]
    exact insertionSort_inner_stable key lt hlt a i d (by omega) c

/-- On at most twelve elements `sort.Slice` is the insertion sort, which keeps
the elements of equal key in their order. -/
theorem Slice_stable_of_short (hlt : ∀ x y, lt x y = decide (key x < key y)) (x : List α)
    (h : x.length ≤ 12) (c : Int) :
    (Slice lt x).filter (fun y => decide (key y = c)) =
      x.filter (fun y => decide (key y = c)) := by
  unfold Slice
  simp only []
  unfold pdqsort_func
  simp only []
  rw [if_pos (by omega)]
  unfold insertionSort_func
  by_cases h0 : x.length = 0
  · rw [h0]; rfl
  · exact insertionSort_outer_stable key lt hlt 0 (x.length - (0 + 1)) (0 + 1) x (by omega) c

end Keyed

end CauRss.GoSort

/-! ## The aggregate of the Seoul dormitory feeds -/

namespace CauRss

theorem isSeoulDormitoryKey_eq (key : String) :
    isSeoulDormitoryKey key = decide (key ∈ seoulDormitoryKeys) := by
  unfold isSeoulDormitoryKey seoulDormitoryKeys
  by_cases h1 : key = "dormitory/seoul/bluemir"
  · simp [h1]
  · by_cases h2 : key = "dormitory/seoul/future_house"
    · simp [h2]
    · by_cases h3 : key = "dormitory/seoul/global_house"
      · simp [h3]
      · simp [h1, h2, h3]

/-- The loop of `getAllSeoulDormitoryArticles` appends the filtered
concatenation to what it starts from. -/
theorem collectSeoulDormitoryArticles_eq (items : List CrawlSuccessItem)
    (articles : List CAUArticle) :
    collectSeoulDormitoryArticles items articles = articles ++ dormitoryConcat items := by
  induction items generalizing articles with
  | nil => simp [collectSeoulDormitoryArticles, dormitoryConcat]
  | cons item items ih =>
    unfold collectSeoulDormitoryArticles
    rw [isSeoulDormitoryKey_eq]
    by_cases h : item.SiteInfo.Key ∈ seoulDormitoryKeys
    · rw [if_pos (by simpa using h), ih]
      simp [dormitoryConcat, List.filter_cons, h, List.flatMap_cons]
    · rw [if_neg (by simpa using h), ih]
      simp [dormitoryConcat, List.filter_cons, h]

theorem dateBefore_eq (x y : CAUArticle) :
    dateBefore x y = decide ((fun a : CAUArticle => a.Date) x < (fun a : CAUArticle => a.Date) y) :=
  rfl

theorem getAllSeoulDormitoryArticles_eq (siteInfo : CauWebsite) (items : List CrawlSuccessItem) :
    getAllSeoulDormitoryArticles siteInfo items = GoSort.Slice dateBefore (dormitoryConcat items) := by
  unfold getAllSeoulDormitoryArticles
  simp only []
  rw [collectSeoulDormitoryArticles_eq, List.nil_append]

/-- C1: for every list of success entries, `getAllSeoulDormitoryArticles`
returns a permutation of the concatenation, in entry order, of the articles of
exactly the entries whose key is one of `dormitory/seoul/bluemir`,
`dormitory/seoul/future_house`, `dormitory/seoul/global_house`, sorted by
ascending date (no article is strictly before an article that precedes it); the
result is empty when no entry has one of the three keys, and every article of
the result is an article of an entry with one of the three keys. -/
theorem getAllSeoulDormitoryArticles_sorted_perm (siteInfo : CauWebsite)
    (items : List CrawlSuccessItem) :
    (getAllSeoulDormitoryArticles siteInfo items).Perm (dormitoryConcat items) ∧
    (getAllSeoulDormitoryArticles siteInfo items).Pairwise (fun x y => ¬ y.Date < x.Date) ∧
    ((∀ item ∈ items, item.SiteInfo.Key ∉ seoulDormitoryKeys) →
      getAllSeoulDormitoryArticles siteInfo items = []) ∧
    (∀ x ∈ getAllSeoulDormitoryArticles siteInfo items,
      ∃ item ∈ items, item.SiteInfo.Key ∈ seoulDormitoryKeys ∧ x ∈ item.Articles) := by
  rw [getAllSeoulDormitoryArticles_eq]
  obtain ⟨hperm, hsorted⟩ :=
    GoSort.Slice_spec (fun a : CAUArticle => a.Date) dateBefore dateBefore_eq (dormitoryConcat items)
  refine ⟨hperm, ?_, ?_, ?_⟩
  · exact hsorted.imp (fun h => not_lt.mpr h)
  · intro hnone
    have : dormitoryConcat items = [] := by
      unfold dormitoryConcat
      rw [List.filter_eq_nil_iff.mpr (fun item hitem => by simpa using hnone item hitem)]
      rfl
    rw [this] at hperm ⊢
    exact List.Perm.eq_nil hperm
  · intro x hx
    have hx' := hperm.subset hx
    unfold dormitoryConcat at hx'
    rw [List.mem_flatMap] at hx'
    obtain ⟨item, hitem, hxi⟩ := hx'
    rw [List.mem_filter] at hitem
    exact ⟨item, hitem.1, by simpa using hitem.2, hxi⟩

set_option maxRecDepth 100000 in
/-- C2 (counterexample): one dormitory entry with thirteen articles, twelve of
date `1` followed by one of date `0`; `sort.Slice` partitions around the middle
article, and the articles of date `1` come out in the order `t6, t2, t3, t4, t5,
t0, t7, ..., t11, t1`. -/
theorem getAllSeoulDormitoryArticles_unstable :
    getAllSeoulDormitoryArticles bluemir thirteenItems =
      [article "z" 0, article "t6" 1, article "t2" 1, article "t3" 1, article "t4" 1,
       article "t5" 1, article "t0" 1, article "t7" 1, article "t8" 1, article "t9" 1,
       article "t10" 1, article "t11" 1, article "t1" 1] ∧
    ¬ StableByDate (dormitoryConcat thirteenItems)
      (getAllSeoulDormitoryArticles bluemir thirteenItems) := by
  have h : getAllSeoulDormitoryArticles bluemir thirteenItems =
      [article "z" 0, article "t6" 1, article "t2" 1, article "t3" 1, article "t4" 1,
       article "t5" 1, article "t0" 1, article "t7" 1, article "t8" 1, article "t9" 1,
       article "t10" 1, article "t11" 1, article "t1" 1] := by decide
  refine ⟨h, fun hstable => ?_⟩
  have h1 := hstable 1
  rw [h] at h1
  revert h1
  decide

/-- C2 (amended): when the filtered concatenation has at most twelve articles,
the date sort of `getAllSeoulDormitoryArticles` is stable: articles of equal
date keep the relative order they have in the concatenation. -/
theorem getAllSeoulDormitoryArticles_stable_of_short (siteInfo : CauWebsite)
    (items : List CrawlSuccessItem) (h : (dormitoryConcat items).length ≤ 12) :
    StableByDate (dormitoryConcat items) (getAllSeoulDormitoryArticles siteInfo items) := by
  intro date
  rw [getAllSeoulDormitoryArticles_eq]
  exact GoSort.Slice_stable_of_short (fun a : CAUArticle => a.Date) dateBefore dateBefore_eq
    (dormitoryConcat items) h date

/-- C2 (witness): a dormitory entry with the dates `5, 3, 5` next to another
site's entry; the two articles of date `5` keep their order. -/
theorem getAllSeoulDormitoryArticles_stable_of_short_witness :
    (dormitoryConcat smallItems).length ≤ 12 ∧
    StableByDate (dormitoryConcat smallItems)
      (getAllSeoulDormitoryArticles bluemir smallItems) ∧
    getAllSeoulDormitoryArticles bluemir smallItems =
      [article "b2" 3, article "b1" 5, article "b3" 5] :=
  ⟨by decide,
    getAllSeoulDormitoryArticles_stable_of_short bluemir smallItems (by decide),
    by decide⟩

end CauRss

/-! ## Crawl failures and the feed files -/

namespace CauRss

/-- The filtered concatenation depends on the entries only through their
descriptors and articles. -/
theorem dormitoryConcat_congr (items items' : List CrawlSuccessItem)
    (h : (items.map fun e => (e.SiteInfo, e.Articles)) =
      (items'.map fun e => (e.SiteInfo, e.Articles))) :
    dormitoryConcat items = dormitoryConcat items' := by
  have key : ∀ l : List CrawlSuccessItem, dormitoryConcat l =
      (((l.map fun e => (e.SiteInfo, e.Articles)).filter
        fun p => decide (p.1.Key ∈ seoulDormitoryKeys)).flatMap fun p => p.2) := by
    intro l
    induction l with
    | nil => rfl
    | cons x xs ih =>
      unfold dormitoryConcat at ih ⊢
      by_cases hx : x.SiteInfo.Key ∈ seoulDormitoryKeys
      · simp only [List.filter_cons, List.map_cons, hx, decide_True, if_true,
          List.flatMap_cons, ih]
      · simp only [List.filter_cons, List.map_cons, hx, decide_False, Bool.false_eq_true,
          if_false, ih]
  rw [key items, key items', h]

/-- The success entries of a run (descriptors and articles, the aggregate entry
included) are those of the run on the registry without the failing sites. -/
theorem crawl_Success_withoutFailedSites (env : Env) :
    ((crawl env).Success.map fun e => (e.SiteInfo, e.Articles)) =
      ((crawl (withoutFailedSites env)).Success.map fun e => (e.SiteInfo, e.Articles)) := by
  have hsucc : ((crawlAllSites env).success.map fun e => (e.SiteInfo, e.Articles)) =
      ((crawlAllSites (withoutFailedSites env)).success.map
        fun e => (e.SiteInfo, e.Articles)) := by
    rw [crawlAllSites_success, crawlAllSites_success]
    show _ = List.map _ (List.filter _ (List.filter _ env.LoopForAllSites))
    rw [List.filter_filter]
    congr 1
    apply List.filter_congr
    intro s _
    show _ = ((decide (s.Key ≠ placeholderKey) && fetchSucceeds env s.Key) &&
      (decide (s.Key = placeholderKey) || fetchSucceeds env s.Key))
    by_cases hk : s.Key = placeholderKey <;> cases fetchSucceeds env s.Key <;> simp [hk]
  have hall : (crawlAllSites env).allSeoulDormitory =
      (crawlAllSites (withoutFailedSites env)).allSeoulDormitory := by
    rw [crawlAllSites_all, crawlAllSites_all]
    show _ = (List.getLast? (List.filter _ (List.filter _ env.LoopForAllSites))).getD _
    rw [List.filter_filter]
    congr 2
    apply List.filter_congr
    intro s _
    by_cases hk : s.Key = placeholderKey <;> simp [hk]
  rw [crawl_Success, crawl_Success, List.map_append, List.map_append, hsucc, ← hall]
  congr 1
  simp only [List.map_cons, List.map_nil, List.cons.injEq, Prod.mk.injEq, and_true, true_and]
  rw [getAllSeoulDormitoryArticles_eq, getAllSeoulDormitoryArticles_eq,
    dormitoryConcat_congr _ _ hsucc]

/-- C6: a crawl failure of one site does not keep the other sites from their
feed files: a non-placeholder site of the registry whose own fetch succeeds has
a `Success` entry with exactly the returned articles, whatever the other
fetches did, and when the serializations and file operations succeed
`generateFeedFiles` completes on the crawl result and has written that entry's
`rss`, `atom` and `json` files with the collaborator's serializations; the
success entries are those of the run without the failing sites; the failing
sites are exactly the `Failure` entries, and a failed fetch only appends a
`Failure` entry, leaving the successes and the captured placeholder as they
were. -/
theorem crawl_failure_does_not_block (env : Env) (s : CauWebsite) (articles : List CAUArticle)
    (hs : s ∈ env.LoopForAllSites) (hk : s.Key ≠ placeholderKey)
    (hok : env.FetchArticlesForKey s.Key = .ok articles) :
    (∃ e ∈ (crawl env).Success, e.SiteInfo = s ∧ e.Articles = articles ∧
      ∀ dir fs, allEntriesSucceed env dir (crawl env).Success fs = true →
        ∃ (fs' : FS) (rss atom json : SerializedText) (written : List (String × String)),
          generateFeedFiles env dir (crawl env) fs = .returned fs' ∧
          env.GenerateFeed (feedOf e) articles FeedType.RSS = .ok rss ∧
          env.GenerateFeed (feedOf e) articles FeedType.ATOM = .ok atom ∧
          env.GenerateFeed (feedOf e) articles FeedType.JSON = .ok json ∧
          fs'.files = written ++ fs.files ∧
          (env.pathJoin [env.pathJoin [dir, "cau", s.Key], "rss"], rss.text) ∈ written ∧
          (env.pathJoin [env.pathJoin [dir, "cau", s.Key], "atom"], atom.text) ∈ written ∧
          (env.pathJoin [env.pathJoin [dir, "cau", s.Key], "json"], json.text) ∈ written) ∧
    ((crawl env).Success.map fun e => (e.SiteInfo, e.Articles)) =
      ((crawl (withoutFailedSites env)).Success.map fun e => (e.SiteInfo, e.Articles)) ∧
    ((crawl env).Failure.map fun e => e.SiteInfo) =
      (env.LoopForAllSites.filter
        fun t => decide (t.Key ≠ placeholderKey) && !fetchSucceeds env t.Key) ∧
    (∀ (st : CrawlState) (t : CauWebsite), t.Key ≠ placeholderKey →
      fetchSucceeds env t.Key = false →
      visitSite env st t =
        { st with
          failures := st.failures ++ [{ SiteInfo := t, Timestamp := env.Now st.clock }],
          clock := st.clock + 1 }) := by
  refine ⟨?_, crawl_Success_withoutFailedSites env, crawlAllSites_failures env,
    fun st t ht hf => visitSite_failure env st t ht hf⟩
  have hfs : fetchSucceeds env s.Key = true := by simp [fetchSucceeds, hok]
  have hfa : fetchedArticles env s.Key = articles := by simp [fetchedArticles, hok]
  have hm : (s, articles) ∈
      ((crawlAllSites env).success.map fun e => (e.SiteInfo, e.Articles)) := by
    rw [crawlAllSites_success, List.mem_map]
    exact ⟨s, List.mem_filter.mpr ⟨hs, by simp [hk, hfs]⟩, by rw [hfa]⟩
  obtain ⟨e, he, hpair⟩ := List.mem_map.mp hm
  simp only [Prod.mk.injEq] at hpair
  obtain ⟨hes, hea⟩ := hpair
  have heS : e ∈ (crawl env).Success := by
    rw [crawl_Success]; exact List.mem_append_left _ he
  refine ⟨e, heS, hes, hea, ?_⟩
  intro dir fs hall
  obtain ⟨rss, atom, json, h1, h2, h3, s1, s2, s3⟩ :=
    serialized_of_succeed env e (allEntriesSucceed_mem env dir _ fs hall e heS)
  rw [hea] at h1 h2 h3
  refine ⟨fsAfterEntries env dir (crawl env).Success fs, rss, atom, json,
    ((crawl env).Success.flatMap (feedWrites env dir)).reverse,
    (generateFeedFilesLoop_returned_iff env dir _ fs _).mpr ⟨hall, rfl⟩, h1, h2, h3,
    fsAfterEntries_files env dir _ fs, ?_, ?_, ?_⟩ <;>
  · rw [List.mem_reverse, List.mem_flatMap]
    refine ⟨e, heS, ?_⟩
    simp [feedWrites, feedDirOf, hes, s1, s2, s3]

/-- C6 (witness): the registry `bluemir`, `library`, placeholder, where the
fetch of `bluemir` fails and the fetch of `library` succeeds: the library has
its `Success` entry, the run of `generateFeedFiles` on an empty `public`
completes and the library's three files are among the files written. -/
theorem crawl_failure_does_not_block_witness :
    fetchSucceeds libraryEnv bluemir.Key = false ∧
    (∃ e ∈ (crawl libraryEnv).Success, e.SiteInfo = library ∧
      e.Articles = [article "l1" 1, article "l2" 2] ∧
      ∃ (fs' : FS) (rss atom json : SerializedText) (written : List (String × String)),
        generateFeedFiles libraryEnv "public" (crawl libraryEnv) emptyPublic = .returned fs' ∧
        libraryEnv.GenerateFeed (feedOf e) [article "l1" 1, article "l2" 2] FeedType.RSS =
          .ok rss ∧
        libraryEnv.GenerateFeed (feedOf e) [article "l1" 1, article "l2" 2] FeedType.ATOM =
          .ok atom ∧
        libraryEnv.GenerateFeed (feedOf e) [article "l1" 1, article "l2" 2] FeedType.JSON =
          .ok json ∧
        fs'.files = written ++ emptyPublic.files ∧
        (libraryEnv.pathJoin [libraryEnv.pathJoin ["public", "cau", library.Key], "rss"],
          rss.text) ∈ written ∧
        (libraryEnv.pathJoin [libraryEnv.pathJoin ["public", "cau", library.Key], "atom"],
          atom.text) ∈ written ∧
        (libraryEnv.pathJoin [libraryEnv.pathJoin ["public", "cau", library.Key], "json"],
          json.text) ∈ written) ∧
    (generateFeedFiles libraryEnv "public" (crawl libraryEnv) emptyPublic).fs.files =
      [("public/cau/dormitory/seoul/all/json", "\x7b\x7dA 공지사항"),
       ("public/cau/dormitory/seoul/all/atom", "<feed>A 공지사항"),
       ("public/cau/dormitory/seoul/all/rss", "<rss>A 공지사항"),
       ("public/cau/library/json", "\x7b\x7dLibrary 공지사항"),
       ("public/cau/library/atom", "<feed>Library 공지사항"),
       ("public/cau/library/rss", "<rss>Library 공지사항")] :=
  ⟨by decide,
    let ⟨e, he, hs, ha, hfiles⟩ := (crawl_failure_does_not_block libraryEnv library
      [article "l1" 1, article "l2" 2] (by decide) (by decide) rfl).1
    ⟨e, he, hs, ha, hfiles "public" emptyPublic (by decide)⟩,
    by decide⟩

end CauRss
